import Mathlib

/-!
# SED Auto Materials: a verification development

A shallow embedding of the polygon grouping, face-line parsing and OBJ text
generation of `Sources/01_AutoMaterials/Main.cpp` (the console program) and of
the matching functions of `Sources/02_AutoMaterialsGUI/Main.cpp`.

Conventions of the embedding:
* `unsigned` values are natural numbers; the face-line reader only produces
  values below `2 ^ 32` (`UINT_MAX_VAL` is the largest one);
* `std::string` is `List Char`, `std::vector<T>` is `List T`;
* `std::unordered_set<Vertex, Vertex::Hash>` is a list of vertices holding no
  two elements equal under `Vertex::operator==`; its iteration order is never
  observed by the program;
* the sentinel `int lastGroupPolyAdded = -1` is `Option Nat` (`none` for `-1`);
* the loop counters `unsigned p` and `unsigned g` are natural numbers that do
  not wrap: vectors of `2 ^ 31` or more polygons or groups are outside the model;
* indexing a vector is `xs[i]?.getD d`; the program only indexes inside the
  vector, so the default is never what the program would read;
* a file is the list of its lines as the loop `while(!in.eof()) getline` sees
  them (the pieces between line feeds, the last one included).
-/

namespace AutoMaterials

/-! ## Data model -/

/-- The `Vertex` structure: three index fields. -/
structure Vertex where
  posIdx : Nat
  uvIdx : Nat
  normalIdx : Nat
deriving DecidableEq, Repr

/-- The comparison `Vertex::operator==`: position and UV index only. -/
def Vertex.eqv (a b : Vertex) : Bool :=
  a.posIdx == b.posIdx && a.uvIdx == b.uvIdx

/-- The alias `using Polygon = std::vector<Vertex>`. -/
abbrev Polygon := List Vertex

/-- The member `unordered_set::count` under `Vertex::operator==`. -/
def usCount (s : List Vertex) (v : Vertex) : Bool :=
  s.any (fun w => w.eqv v)

/-- The member `unordered_set::insert`: nothing happens when an equal element is present. -/
def usInsert (s : List Vertex) (v : Vertex) : List Vertex :=
  if usCount s v then s else s ++ [v]

/-- One element transfer of `unordered_set::merge`: the element moves to the
destination unless the destination holds an equal one, in which case it stays
in the source. The state is (destination, what stays in the source). -/
def usMergeStep (st : List Vertex × List Vertex) (v : Vertex) : List Vertex × List Vertex :=
  if usCount st.1 v then (st.1, st.2 ++ [v]) else (st.1 ++ [v], st.2)

/-- The member `unordered_set::merge`: returns (destination, source) afterwards. -/
def usMerge (dst src : List Vertex) : List Vertex × List Vertex :=
  src.foldl usMergeStep (dst, [])

/-- The `Group` structure: polygon indices and the vertex set. -/
structure Group where
  polygons : List Nat
  vertices : List Vertex
deriving DecidableEq, Repr

/-- A default-constructed `Group`. -/
def Group.empty : Group := { polygons := [], vertices := [] }

instance : Inhabited Group := ⟨Group.empty⟩

/-- The method `Group::polygonBelongs`: `std::any_of` over the polygon's vertices. -/
def Group.polygonBelongs (g : Group) (polygonVertices : Polygon) : Bool :=
  polygonVertices.any (fun v => usCount g.vertices v)

/-- The method `Group::addPolygon`. -/
def Group.addPolygon (g : Group) (polygonIdx : Nat) (polygonVertices : Polygon) : Group :=
  { polygons := g.polygons ++ [polygonIdx],
    vertices := polygonVertices.foldl usInsert g.vertices }

/-- The method `Group::joinGroup`: returns (this group, the argument group) afterwards;
the argument keeps its polygon list and the vertices that were not moved. -/
def Group.joinGroup (self group : Group) : Group × Group :=
  ({ polygons := self.polygons ++ group.polygons,
     vertices := (usMerge self.vertices group.vertices).1 },
   { polygons := group.polygons,
     vertices := (usMerge self.vertices group.vertices).2 })

/-- The method `Group::cleanGroup`. -/
def Group.cleanGroup (_g : Group) : Group :=
  { polygons := [], vertices := [] }

/-! ## The UV-group partitioner -/

/-- The body of the inner loop `for g` of the grouping pass, at group index `g`;
the state is the group vector and `lastGroupPolyAdded`. -/
def scanBody (poly : Polygon) (p : Nat) (st : List Group × Option Nat) (g : Nat) :
    List Group × Option Nat :=
  if (st.1[g]?.getD default).polygonBelongs poly then
    match st.2 with
    | some l =>
      let r := (st.1[g]?.getD default).joinGroup (st.1[l]?.getD default)
      let gs1 := (st.1.set g r.1).set l r.2
      (gs1.set l (gs1[l]?.getD default).cleanGroup, some l)
    | none =>
      (st.1.set g ((st.1[g]?.getD default).addPolygon p poly), some g)
  else st

/-- The inner loop run for the group indices below `n`. -/
def scanUpTo (poly : Polygon) (p : Nat) (groups : List Group) (n : Nat) :
    List Group × Option Nat :=
  (List.range n).foldl (scanBody poly p) (groups, none)

/-- The whole inner loop `for(g = 0; g < groups.size(); g++)`. -/
def scanGroups (poly : Polygon) (p : Nat) (groups : List Group) : List Group × Option Nat :=
  scanUpTo poly p groups groups.length

/-- One iteration of the outer loop: the scan, then the new group when the
polygon was added nowhere. -/
def processPolygon (groups : List Group) (p : Nat) (poly : Polygon) : List Group :=
  match (scanGroups poly p groups).2 with
  | none => (scanGroups poly p groups).1 ++ [Group.empty.addPolygon p poly]
  | some _ => (scanGroups poly p groups).1

/-- The group vector after the outer loop has processed the polygons below `n`. -/
def groupsAfter (polygons : List Polygon) (n : Nat) : List Group :=
  (List.range n).foldl (fun gs p => processPolygon gs p (polygons[p]?.getD [])) []

/-- The `remove_if` / `erase` statement: groups with no polygon are removed. -/
def pruneGroups (groups : List Group) : List Group :=
  groups.filter (fun g => !g.polygons.isEmpty)

/-- The function `DivideForEachUv` (the grouping section of the console `main`). -/
def DivideForEachUv (polygons : List Polygon) : List Group :=
  pruneGroups (groupsAfter polygons polygons.length)

/-- One step of the loop of `DivideForEachPoly`. -/
def polyStep (polygons : List Polygon) (gs : List Group) (p : Nat) : List Group :=
  gs ++ [Group.empty.addPolygon p (polygons[p]?.getD [])]

/-- The function `DivideForEachPoly`. -/
def DivideForEachPoly (polygons : List Polygon) : List Group :=
  (List.range polygons.length).foldl (polyStep polygons) []

/-! ## Text input: the stream extractions used by the face-line reader

A `std::stringstream` over a line is the list of characters not yet read; an
extraction returns `none` when it sets `failbit`. Once an extraction of the
chain `iss >> a >> b >> ...` has failed the later ones do nothing and the
condition of the `while` is false, which is how `readVertex` chains them. -/

/-- The largest `unsigned` value, `2 ^ 32 - 1`. -/
def UINT_MAX_VAL : Nat := 4294967295

/-- The classification `std::isspace` of the "C" locale. -/
def isSpace (c : Char) : Bool :=
  c == ' ' || c == '\t' || c == '\n' || c == '\x0b' || c == '\x0c' || c == '\r'

/-- A decimal digit character. -/
def isDigit (c : Char) : Bool :=
  decide (48 ≤ c.toNat) && decide (c.toNat ≤ 57)

/-- The value of a digit character. -/
def digitValue (c : Char) : Nat :=
  c.toNat - 48

/-- The value of a sequence of decimal digits. -/
def decimalValue (ds : List Char) : Nat :=
  ds.foldl (fun acc c => 10 * acc + digitValue c) 0

/-- The whitespace skipping every formatted extraction starts with. -/
def skipWs (s : List Char) : List Char :=
  s.dropWhile isSpace

/-- The extraction `iss >> cTrash` of one `char`: whitespace is skipped and
the next character is taken; it fails at the end of the line. -/
def readChar (s : List Char) : Option (Char × List Char) :=
  match skipWs s with
  | [] => none
  | c :: rest => some (c, rest)

/-- The optional sign in front of the digits of a number is taken. -/
def stripSign (s : List Char) : List Char :=
  if s.head? == some '-' || s.head? == some '+' then s.tail else s

/-- The extraction `iss >> x` of an `unsigned`: whitespace is skipped, an
optional sign and then the longest run of decimal digits is taken. It fails
when there is no digit or when the digits exceed `UINT_MAX_VAL`; a value with a
minus sign is negated modulo `2 ^ 32`. -/
def readUnsigned (s : List Char) : Option (Nat × List Char) :=
  if ((stripSign (skipWs s)).takeWhile isDigit).isEmpty then none
  else if decimalValue ((stripSign (skipWs s)).takeWhile isDigit) > UINT_MAX_VAL then none
  else some
    (if (skipWs s).head? == some '-' then
       (UINT_MAX_VAL + 1 - decimalValue ((stripSign (skipWs s)).takeWhile isDigit)) %
         (UINT_MAX_VAL + 1)
     else decimalValue ((stripSign (skipWs s)).takeWhile isDigit),
     (stripSign (skipWs s)).dropWhile isDigit)

/-- The condition of the reading loop,
`iss >> v.posIdx >> cTrash >> v.uvIdx >> cTrash >> v.normalIdx`:
the vertex read and the rest of the line, or `none` when an extraction fails. -/
def readVertex (s : List Char) : Option (Vertex × List Char) :=
  match readUnsigned s with
  | none => none
  | some (pos, s1) =>
    match readChar s1 with
    | none => none
    | some (_, s2) =>
      match readUnsigned s2 with
      | none => none
      | some (uv, s3) =>
        match readChar s3 with
        | none => none
        | some (_, s4) =>
          match readUnsigned s4 with
          | none => none
          | some (normal, s5) => some ({ posIdx := pos, uvIdx := uv, normalIdx := normal }, s5)

/-- The loop `while (iss >> ...) p.push_back(v)` run for at most `fuel`
iterations. -/
def readVerticesFuel : Nat → List Char → Polygon
  | 0, _ => []
  | fuel + 1, s =>
    match readVertex s with
    | none => []
    | some (v, rest) => v :: readVerticesFuel fuel rest

/-- The loop `while (iss >> ...) p.push_back(v)`: every iteration consumes
characters, so one more iteration than the line has characters is never used up
(`readVertices_unfold`). -/
def readVertices (s : List Char) : Polygon :=
  readVerticesFuel (s.length + 1) s

/-- The test `line.compare(0, n, str) == 0`: the first `n` characters of the
line (fewer when the line is shorter) are exactly `str`. -/
def compareIsZero (line : List Char) (n : Nat) (str : List Char) : Bool :=
  line.take n == str

/-- The body of the reading loop of `ReadPolygons` for one line: a line that
starts with "f " appends one polygon to the store. -/
def readLine (polygons : List Polygon) (line : List Char) : List Polygon :=
  if compareIsZero line 2 "f ".toList then
    match readChar line with
    | some (_, rest) => polygons ++ [readVertices rest]
    | none => polygons ++ [[]]
  else polygons

/-- The function `ReadPolygons` over the lines `std::getline` delivers. -/
def ReadPolygons (lines : List (List Char)) : List Polygon :=
  lines.foldl readLine []

/-- The face-line reader on one line: the polygon it appends, if any. -/
def parseFaceLine (line : List Char) : Option Polygon :=
  (readLine [] line).head?

/-! ## Header collection -/

/-- The loop of `ReadBaseObjData` (the second reading loop of the console
`main`) over the remaining lines; `text` is the vector the lines are pushed to. -/
def headerLoop : List (List Char) → List (List Char) → List (List Char)
  | [], text => text
  | line :: rest, text =>
    if !compareIsZero line 1 "#".toList && !compareIsZero line 6 "mtllib".toList then
      if compareIsZero line 6 "usemtl".toList then text
      else headerLoop rest (text ++ [line])
    else headerLoop rest text

/-- The function `ReadBaseObjData`: the copied header lines. -/
def ReadBaseObjData (lines : List (List Char)) : List (List Char) :=
  headerLoop lines []

/-! ## Text output -/

/-- The function `std::to_string` on an `unsigned`: the decimal digits. -/
def to_string (n : Nat) : List Char :=
  Nat.toDigits 10 n

/-- The text appended to `polygonStr` for one vertex. -/
def vertexText (v : Vertex) : List Char :=
  " ".toList ++ to_string v.posIdx ++ "/".toList ++ to_string v.uvIdx ++ "/".toList ++
    to_string v.normalIdx

/-- The string `polygonStr` built for one polygon: "f" and the vertex texts. -/
def faceLine (polygon : Polygon) : List Char :=
  polygon.foldl (fun polygonStr v => polygonStr ++ vertexText v) "f".toList

/-- The loop `for(unsigned int p : groups[g].polygons)` pushing one face line
per polygon index. -/
def emitFaces (polygons : List Polygon) (text : List (List Char)) (idxs : List Nat) :
    List (List Char) :=
  idxs.foldl (fun t p => t ++ [faceLine (polygons[p]?.getD [])]) text

/-- The OBJ part of the body of the loop `for g` of the text generation. -/
def emitGroupObj (polygons : List Polygon) (groups : List Group) (text : List (List Char))
    (g : Nat) : List (List Char) :=
  emitFaces polygons
    (text ++ ["usemtl Material.".toList ++ to_string g, "s off".toList])
    (groups[g]?.getD default).polygons

/-- The OBJ lines the loop `for g` appends to `objFileText`. -/
def objBodyFrom (polygons : List Polygon) (groups : List Group) (text : List (List Char)) :
    List (List Char) :=
  (List.range groups.length).foldl (emitGroupObj polygons groups) text

/-- The generated OBJ body: what the loop appends to an empty text. -/
def objBody (polygons : List Polygon) (groups : List Group) : List (List Char) :=
  objBodyFrom polygons groups []

/-- The MTL part of the body of the loop `for g` of the text generation. -/
def emitGroupMtl (text : List (List Char)) (g : Nat) : List (List Char) :=
  text ++ ["".toList, "newmtl Material.".toList ++ to_string g, "Ns 225.000000".toList,
    "Ka 1.000000 1.000000 1.000000".toList, "Kd 0.800000 0.800000 0.800000".toList,
    "Ks 0.500000 0.500000 0.500000".toList, "Ke 0.000000 0.000000 0.000000".toList,
    "Ni 1.450000".toList, "d 1.000000".toList, "illum 2".toList]

/-- The MTL lines: the two leading comments and one block per group. -/
def mtlText (groups : List Group) : List (List Char) :=
  (List.range groups.length).foldl emitGroupMtl
    ["# SED Auto Materials v1.0 MTL File".toList,
     "# Material Count: ".toList ++ to_string groups.length]

/-- The OBJ body as the specification words it: for each group position `i`,
the line `usemtl Material.<i>`, the line `s off`, and one line per polygon index
of the group made of `f` and ` <pos>/<uv>/<normal>` for each vertex. -/
def specObjBody (polygons : List Polygon) (groups : List Group) : List (List Char) :=
  ((List.range groups.length).map (fun i =>
    ["usemtl Material.".toList ++ Nat.toDigits 10 i, "s off".toList] ++
      (groups[i]?.getD default).polygons.map (fun p =>
        'f' :: ((polygons[p]?.getD []).map (fun v =>
          [' '] ++ Nat.toDigits 10 v.posIdx ++ ['/'] ++ Nat.toDigits 10 v.uvIdx ++ ['/'] ++
            Nat.toDigits 10 v.normalIdx)).flatten))).flatten

/-! ## The console program -/

/-- What the program sees of the file system: the lines of the file at a path
(`none` when it cannot be opened for reading) and whether a path can be opened
for writing. -/
structure FileSystem where
  lines : List Char → Option (List (List Char))
  writable : List Char → Bool

/-- The observable result of a run: the exit code, the lines printed to the
standard output and the files written (path and lines). -/
structure Outcome where
  exitCode : Int
  printed : List (List Char)
  written : List (List Char × List (List Char))

/-- The lines of `objFileText` at the end of the preparation. -/
def objFileText (lines : List (List Char)) (polygons : List Polygon) (groups : List Group)
    (outputFilename : List Char) : List (List Char) :=
  objBodyFrom polygons groups
    (headerLoop lines ["# SED Auto Materials v1.0 OBJ File".toList,
      "mtllib ".toList ++ outputFilename ++ ".mtl".toList])

/-- Writing a text through an `std::ofstream` that is not checked after
`open`: nothing is written when the file could not be opened. -/
def writeFile (fs : FileSystem) (path : List Char) (text : List (List Char)) :
    List (List Char × List (List Char)) :=
  if fs.writable path then [(path, text)] else []

/-- The function `main` of the console program; `argv` includes the program
name, so `argc` is `argv.length`. -/
def main (argv : List (List Char)) (fs : FileSystem) : Outcome :=
  if argv.length < 2 then
    { exitCode := 1, printed := ["No file provided.".toList], written := [] }
  else
    match fs.lines (argv[1]?.getD []) with
    | none =>
      { exitCode := 1,
        printed := ["Can't open file \"".toList ++ argv[1]?.getD [] ++ "\".".toList],
        written := [] }
    | some lines =>
      if (ReadPolygons lines).isEmpty then
        { exitCode := 1, printed := ["Can't ready polygon data from file.".toList],
          written := [] }
      else
        { exitCode := 0,
          printed := [],
          written :=
            writeFile fs ((if argv.length < 3 then "output".toList else argv[2]?.getD []) ++
                ".obj".toList)
              (objFileText lines (ReadPolygons lines) (DivideForEachUv (ReadPolygons lines))
                (if argv.length < 3 then "output".toList else argv[2]?.getD [])) ++
            writeFile fs ((if argv.length < 3 then "output".toList else argv[2]?.getD []) ++
                ".mtl".toList)
              (mtlText (DivideForEachUv (ReadPolygons lines))) }

/-! ## The interactive program: the global state and the partition step -/

/-- The enumeration `GlobalAppState`. -/
inductive GlobalAppState where
  | eFileNotSelected
  | eCanNotOpen
  | eBadFile
  | eFileRead
  | eDivided
deriving DecidableEq, Repr

/-- The enumeration `DivisionMode`. -/
inductive DivisionMode where
  | ePerUvGroup
  | ePerPolygon
deriving DecidableEq, Repr

/-- The global variables of the interactive program the partition step reads
or writes. -/
structure AppState where
  g_eGlobalState : GlobalAppState
  g_vPolygons : List Polygon
  g_vGroups : List Group
  g_eDivisionMode : DivisionMode

/-- The statement `g_vGroups.clear()`. -/
def clearGroups (_groups : List Group) : List Group := []

/-- The function `DivideForEachUv` on the global state: the group vector is
cleared, the grouping pass runs over `g_vPolygons`, empty groups are removed. -/
def runDivideForEachUv (st : AppState) : AppState :=
  { st with
    g_vGroups := pruneGroups ((List.range st.g_vPolygons.length).foldl
      (fun gs p => processPolygon gs p (st.g_vPolygons[p]?.getD []))
      (clearGroups st.g_vGroups)) }

/-- The function `DivideForEachPoly` on the global state. -/
def runDivideForEachPoly (st : AppState) : AppState :=
  { st with
    g_vGroups := (List.range st.g_vPolygons.length).foldl (polyStep st.g_vPolygons)
      (clearGroups st.g_vGroups) }

/-- The call the main loop makes for the current division mode. -/
def divide (st : AppState) : AppState :=
  if st.g_eDivisionMode = DivisionMode.ePerUvGroup then runDivideForEachUv st
  else runDivideForEachPoly st

/-- The partition step of the main loop of `WinMain`: when a file has been
read, divide by the current mode and mark the state as divided. -/
def partitionStep (st : AppState) : AppState :=
  if st.g_eGlobalState = GlobalAppState.eFileRead then
    { divide st with g_eGlobalState := GlobalAppState.eDivided }
  else st

/-! ## Specification-level notions for the partitioner -/

/-- The vertex key: the (positionIndex, uvIndex) pair of a vertex. -/
def Vertex.key (v : Vertex) : Nat × Nat := (v.posIdx, v.uvIdx)

/-- The keys of a list of vertices. -/
def keysOf (vs : List Vertex) : List (Nat × Nat) := vs.map Vertex.key

/-- Two polygons share at least one (positionIndex, uvIndex) pair. -/
def sharesKey (a b : Polygon) : Bool :=
  a.any (fun v => b.any (fun w => decide (v.key = w.key)))

/-- Polygons `a` and `b` of the store share a vertex key. -/
def Shares (polygons : List Polygon) (a b : Nat) : Prop :=
  a < polygons.length ∧ b < polygons.length ∧
    sharesKey (polygons[a]?.getD []) (polygons[b]?.getD []) = true

instance (polygons : List Polygon) (a b : Nat) : Decidable (Shares polygons a b) := by
  unfold Shares; infer_instance

/-- Polygons `a` and `b` are connected by a chain of polygons of the store in
which each one shares a vertex key with the next. -/
def Linked (polygons : List Polygon) (a b : Nat) : Prop :=
  Relation.ReflTransGen (Shares polygons) a b

/-- The group indices below `n` whose group the polygon belongs to. -/
def matchesBelow (poly : Polygon) (groups : List Group) (n : Nat) : List Nat :=
  (List.range n).filter (fun g => (groups[g]?.getD default).polygonBelongs poly)

/-- The closed form of a scan, from the list of matching group indices. -/
def scanResult (poly : Polygon) (p : Nat) (groups : List Group) :
    List Nat → List Group × Option Nat
  | [] => (groups, none)
  | [i] => (groups.set i ((groups[i]?.getD default).addPolygon p poly), some i)
  | i :: j :: _ =>
    ((groups.set i Group.empty).set j
      { polygons := (groups[j]?.getD default).polygons ++ ((groups[i]?.getD default).polygons ++ [p]),
        vertices := (usMerge (groups[j]?.getD default).vertices
          ((groups[i]?.getD default).addPolygon p poly).vertices).1 }, some i)

/-- The number of occurrences of polygon index `i` in the whole group list. -/
def polyCount (i : Nat) (groups : List Group) : Nat :=
  (groups.map (fun g => g.polygons.count i)).sum

/-- Every polygon index held by the group is below `n`. -/
def GroupBelow (n : Nat) (g : Group) : Prop :=
  ∀ a ∈ g.polygons, a < n

/-- Any two polygons held by the group are linked in the store. -/
def GroupLinked (polygons : List Polygon) (g : Group) : Prop :=
  ∀ a ∈ g.polygons, ∀ b ∈ g.polygons, Linked polygons a b

/-- The keys of the group's vertex set are exactly the keys of the polygons it holds. -/
def KeysExact (polygons : List Polygon) (g : Group) : Prop :=
  ∀ k, k ∈ keysOf g.vertices ↔ ∃ a ∈ g.polygons, k ∈ keysOf (polygons[a]?.getD [])

/-- The invariant of the grouping pass once the polygons below `n` are processed. -/
def GroupsInv (polygons : List Polygon) (n : Nat) (groups : List Group) : Prop :=
  ∀ g ∈ groups, GroupBelow n g ∧ GroupLinked polygons g ∧ KeysExact polygons g

/-- What the partitioner's output shows of a group without the normals: the
polygon indices and the keys of the vertex set in stored order. -/
def Group.shape (g : Group) : List Nat × List (Nat × Nat) :=
  (g.polygons, keysOf g.vertices)

/-- A store with other normals: an example for the blindness to normals. -/
def abcStoreOtherNormals : List Polygon :=
  [[⟨1, 1, 7⟩, ⟨2, 2, 8⟩, ⟨3, 3, 9⟩], [⟨3, 3, 1⟩, ⟨4, 4, 2⟩, ⟨5, 5, 3⟩],
   [⟨6, 6, 4⟩, ⟨7, 7, 5⟩, ⟨8, 8, 6⟩]]

/-! ## Specification-level notions for the face-line reader -/

/-- A decimal number as it may stand in a face line: at least one character,
digits only, and a value that fits an `unsigned`. -/
def isNumber (ds : List Char) : Bool :=
  !ds.isEmpty && ds.all isDigit && decide (decimalValue ds ≤ UINT_MAX_VAL)

/-- The text of a vertex token ` <pos>/<uv>/<normal>` with the three numbers given
as digit sequences. -/
def tokenText (t : List Char × List Char × List Char) : List Char :=
  ' ' :: (t.1 ++ '/' :: (t.2.1 ++ '/' :: t.2.2))

/-- The vertex a token stands for. -/
def tokenVertex (t : List Char × List Char × List Char) : Vertex :=
  { posIdx := decimalValue t.1, uvIdx := decimalValue t.2.1, normalIdx := decimalValue t.2.2 }

/-- Every index of the vertex is an `unsigned` value. -/
def Vertex.fits (v : Vertex) : Bool :=
  decide (v.posIdx ≤ UINT_MAX_VAL) && decide (v.uvIdx ≤ UINT_MAX_VAL) &&
    decide (v.normalIdx ≤ UINT_MAX_VAL)

/-- Every index of every vertex of the store is an `unsigned` value. -/
def storeFits (polygons : List Polygon) : Bool :=
  polygons.all (fun p => p.all Vertex.fits)

/-- All polygon indices of a group list, group by group in stored order. -/
def allIndices (groups : List Group) : List Nat :=
  (groups.map (fun g => g.polygons)).flatten

/-- A non-empty sequence of decimal digits, of any length. -/
def isDigits (ds : List Char) : Bool :=
  !ds.isEmpty && ds.all isDigit

/-- The text of a vertex token ` <pos>/<uv>` without a normal. -/
def pairTokenText (t : List Char × List Char) : List Char :=
  ' ' :: (t.1 ++ '/' :: t.2)

/-- The text of a vertex token ` <pos>` without UV and normal. -/
def posTokenText (t : List Char) : List Char :=
  ' ' :: t

/-! ## Example stores -/

/-- A triangle whose three vertices have equal position and UV index and normal 1. -/
def triangle (a b c : Nat) : Polygon :=
  [⟨a, a, 1⟩, ⟨b, b, 1⟩, ⟨c, c, 1⟩]

/-- The three polygons A, B, C of the specification's concrete case. -/
def abcStore : List Polygon :=
  [triangle 1 2 3, triangle 3 4 5, triangle 6 7 8]

/-- Three pairwise unrelated triangles followed by a triangle touching all three. -/
def bridgeStore : List Polygon :=
  [triangle 1 2 3, triangle 4 5 6, triangle 7 8 9, triangle 1 4 7]

/-- Two unrelated triangles followed by a triangle touching both. -/
def twoIslandsStore : List Polygon :=
  [triangle 1 2 3, triangle 4 5 6, triangle 1 4 7]

/-- A file system in which the input `in.obj` holds one face line and no file
can be opened for writing. -/
def readOnlyFs : FileSystem where
  lines := fun path => if path = "in.obj".toList then some ["f 1/1/1 2/2/1 3/3/1".toList] else none
  writable := fun _ => false

/-! # Lemmas and theorems -/

/-! ## Vertex sets -/

theorem eqv_iff_key (a b : Vertex) : a.eqv b = true ↔ a.key = b.key := by
  simp [Vertex.eqv, Vertex.key, Prod.ext_iff]

theorem usCount_iff (s : List Vertex) (v : Vertex) :
    usCount s v = true ↔ v.key ∈ keysOf s := by
  simp only [usCount, keysOf, List.any_eq_true, List.mem_map, eqv_iff_key]

theorem mem_keysOf_usInsert (s : List Vertex) (v : Vertex) (k : Nat × Nat) :
    k ∈ keysOf (usInsert s v) ↔ k ∈ keysOf s ∨ k = v.key := by
  unfold usInsert
  split
  · rename_i h
    rw [usCount_iff] at h
    constructor
    · exact Or.inl
    · rintro (h1 | h1)
      · exact h1
      · rw [h1]; exact h
  · simp [keysOf, eq_comm]

theorem mem_keysOf_foldl_usInsert (pv s : List Vertex) (k : Nat × Nat) :
    k ∈ keysOf (pv.foldl usInsert s) ↔ k ∈ keysOf s ∨ k ∈ keysOf pv := by
  induction pv generalizing s with
  | nil => simp [keysOf]
  | cons v pv ih =>
    rw [List.foldl_cons, ih, mem_keysOf_usInsert]
    simp only [keysOf, List.map_cons, List.mem_cons]
    tauto

theorem mem_keysOf_foldl_usMergeStep (src : List Vertex) (st : List Vertex × List Vertex)
    (k : Nat × Nat) :
    k ∈ keysOf (src.foldl usMergeStep st).1 ↔ k ∈ keysOf st.1 ∨ k ∈ keysOf src := by
  induction src generalizing st with
  | nil => simp [keysOf]
  | cons v src ih =>
    rw [List.foldl_cons, ih]
    unfold usMergeStep
    split
    · rename_i h
      rw [usCount_iff] at h
      simp only [keysOf, List.map_cons, List.mem_cons]
      constructor
      · rintro (h1 | h1)
        · exact Or.inl h1
        · exact Or.inr (Or.inr h1)
      · rintro (h1 | h1 | h1)
        · exact Or.inl h1
        · left; rw [h1]; exact h
        · exact Or.inr h1
    · simp only [keysOf, List.map_cons, List.mem_cons, List.map_append, List.mem_append,
        List.map_nil, List.mem_singleton]
      tauto

theorem mem_keysOf_usMerge (dst src : List Vertex) (k : Nat × Nat) :
    k ∈ keysOf (usMerge dst src).1 ↔ k ∈ keysOf dst ∨ k ∈ keysOf src :=
  mem_keysOf_foldl_usMergeStep src (dst, []) k

theorem usMerge_nil (dst : List Vertex) : usMerge dst [] = (dst, []) := rfl

theorem polygonBelongs_iff (g : Group) (poly : Polygon) :
    g.polygonBelongs poly = true ↔ ∃ k, k ∈ keysOf poly ∧ k ∈ keysOf g.vertices := by
  simp only [Group.polygonBelongs, List.any_eq_true, usCount_iff]
  constructor
  · rintro ⟨v, hv, h⟩
    exact ⟨v.key, List.mem_map_of_mem _ hv, h⟩
  · rintro ⟨k, hk, h⟩
    obtain ⟨v, hv, rfl⟩ := List.mem_map.1 hk
    exact ⟨v, hv, h⟩

theorem sharesKey_iff (a b : Polygon) :
    sharesKey a b = true ↔ ∃ k, k ∈ keysOf a ∧ k ∈ keysOf b := by
  simp only [sharesKey, List.any_eq_true, decide_eq_true_eq, keysOf, List.mem_map]
  constructor
  · rintro ⟨v, hv, w, hw, h⟩
    exact ⟨v.key, ⟨v, hv, rfl⟩, ⟨w, hw, h.symm⟩⟩
  · rintro ⟨k, ⟨v, hv, rfl⟩, ⟨w, hw, h⟩⟩
    exact ⟨v, hv, w, hw, h.symm⟩

theorem polygonBelongs_empty (poly : Polygon) :
    (default : Group).polygonBelongs poly = false := by
  rw [Bool.eq_false_iff]
  intro h
  obtain ⟨k, _, hk⟩ := (polygonBelongs_iff _ _).1 h
  simp [keysOf, default, Group.empty] at hk

/-! ## List updates -/

theorem getD_set_ne {α : Type} (l : List α) {i j : Nat} (h : i ≠ j) (a d : α) :
    (l.set i a)[j]?.getD d = l[j]?.getD d := by
  simp [List.getElem?_set_ne h]

theorem getD_set_self {α : Type} (l : List α) {i : Nat} (h : i < l.length) (a d : α) :
    (l.set i a)[i]?.getD d = a := by
  simp [List.getElem?_set_self h]

theorem set_getD_self {α : Type} (l : List α) (i : Nat) (d : α) (h : i < l.length) :
    l.set i (l[i]?.getD d) = l := by
  apply List.ext_getElem?
  intro j
  rw [List.getElem?_set]
  split
  · rename_i hij
    subst hij
    simp [h]
  · rfl

theorem sum_map_set {α : Type} (f : α → Nat) (l : List α) (i : Nat) (x d : α)
    (h : i < l.length) :
    ((l.set i x).map f).sum + f (l[i]?.getD d) = (l.map f).sum + f x := by
  induction l generalizing i with
  | nil => simp at h
  | cons a l ih =>
    cases i with
    | zero => simp; omega
    | succ i =>
      have h1 : i < l.length := by simpa using h
      have := ih i h1
      simp only [List.set_cons_succ, List.map_cons, List.sum_cons, List.getElem?_cons_succ]
      omega

theorem set_third_match {α : Type} [Inhabited α] (l : List α) {i j n : Nat} (hij : i ≠ j)
    (hin : i ≠ n) (hjn : j ≠ n) (hn : n < l.length) (e x y : α)
    (hy : y = l[n]?.getD default) :
    (((l.set i e).set j x).set n y).set i e = (l.set i e).set j x := by
  have h1 : ((l.set i e).set j x).set n y = (l.set i e).set j x := by
    have h2 := set_getD_self ((l.set i e).set j x) n default (by simpa using hn)
    rw [getD_set_ne _ hjn, getD_set_ne _ hin, ← hy] at h2
    exact h2
  rw [h1, List.set_comm _ _ _ hij.symm, List.set_set]

/-! ## The closed form of one scan -/

theorem scanUpTo_succ (poly : Polygon) (p : Nat) (groups : List Group) (n : Nat) :
    scanUpTo poly p groups (n + 1) = scanBody poly p (scanUpTo poly p groups n) n := by
  simp [scanUpTo, List.range_succ, List.foldl_append]

theorem matchesBelow_succ (poly : Polygon) (groups : List Group) (n : Nat) :
    matchesBelow poly groups (n + 1) = matchesBelow poly groups n ++
      (if (groups[n]?.getD default).polygonBelongs poly then [n] else []) := by
  simp only [matchesBelow, List.range_succ, List.filter_append]
  congr 1
  by_cases h : (groups[n]?.getD default).polygonBelongs poly = true <;> simp [h]

theorem mem_matchesBelow {poly : Polygon} {groups : List Group} {n i : Nat}
    (h : i ∈ matchesBelow poly groups n) :
    i < n ∧ i < groups.length ∧ (groups[i]?.getD default).polygonBelongs poly = true := by
  simp only [matchesBelow, List.mem_filter, List.mem_range] at h
  refine ⟨h.1, ?_, h.2⟩
  by_contra hlen
  rw [List.getElem?_eq_none (Nat.le_of_not_lt hlen)] at h
  exact Bool.false_ne_true ((polygonBelongs_empty poly).symm.trans h.2)

theorem belongs_lt_length {poly : Polygon} {groups : List Group} {n : Nat}
    (h : (groups[n]?.getD default).polygonBelongs poly = true) : n < groups.length := by
  by_contra hlen
  rw [List.getElem?_eq_none (Nat.le_of_not_lt hlen)] at h
  exact Bool.false_ne_true ((polygonBelongs_empty poly).symm.trans h)

theorem scanBody_of_not_belongs (poly : Polygon) (p : Nat) (st : List Group × Option Nat)
    (g : Nat) (h : (st.1[g]?.getD default).polygonBelongs poly = false) :
    scanBody poly p st g = st := by
  simp [scanBody, h]

theorem scanUpTo_eq (poly : Polygon) (p : Nat) (groups : List Group) (n : Nat) :
    scanUpTo poly p groups n = scanResult poly p groups (matchesBelow poly groups n) := by
  induction n with
  | zero => rfl
  | succ n ih =>
    rw [scanUpTo_succ, matchesBelow_succ, ih]
    have hmem : ∀ i ∈ matchesBelow poly groups n, i < n ∧ i < groups.length :=
      fun i hi => ⟨(mem_matchesBelow hi).1, (mem_matchesBelow hi).2.1⟩
    match hm : matchesBelow poly groups n with
    | [] =>
      by_cases hb : (groups[n]?.getD default).polygonBelongs poly = true
      · simp [scanResult, scanBody, hb]
      · simp [scanResult, scanBody, hb]
    | [i] =>
      have hi := hmem i (by simp [hm])
      have hne : i ≠ n := Nat.ne_of_lt hi.1
      by_cases hb : (groups[n]?.getD default).polygonBelongs poly = true
      · have hn := belongs_lt_length hb
        simp only [scanResult, scanBody, getD_set_ne _ hne, hb, if_true, List.singleton_append,
          List.set_set, Group.joinGroup, Group.cleanGroup, getD_set_self _ hi.2]
        rw [List.set_comm _ _ _ hne, List.set_set, List.set_comm _ _ _ hne.symm]
        simp [Group.addPolygon, Group.empty, List.append_assoc]
      · simp [scanResult, scanBody, hb, getD_set_ne _ hne]
    | i :: j :: rest =>
      have hi := hmem i (by simp [hm])
      have hj := hmem j (by simp [hm])
      have hin : i ≠ n := Nat.ne_of_lt hi.1
      have hjn : j ≠ n := Nat.ne_of_lt hj.1
      have hij : i ≠ j := by
        have hnd : (matchesBelow poly groups n).Nodup :=
          (List.nodup_range n).filter _
        rw [hm] at hnd
        intro h
        simp [h] at hnd
      by_cases hb : (groups[n]?.getD default).polygonBelongs poly = true
      · have hn := belongs_lt_length hb
        have hgi : ((groups.set i Group.empty).set j
            { polygons := (groups[j]?.getD default).polygons ++
                ((groups[i]?.getD default).polygons ++ [p]),
              vertices := (usMerge (groups[j]?.getD default).vertices
                ((groups[i]?.getD default).addPolygon p poly).vertices).1 })[i]?.getD default
            = Group.empty := by
          rw [getD_set_ne _ hij.symm, getD_set_self _ hi.2]
        simp only [scanResult, scanBody, getD_set_ne _ hin, getD_set_ne _ hjn, hb, if_true,
          List.cons_append, List.set_set, Group.joinGroup, Group.cleanGroup, hgi]
        simp only [Group.empty, List.append_nil, usMerge_nil]
        congr 1
        exact set_third_match groups hij hin hjn hn _ _ _ rfl
      · simp [scanResult, scanBody, hb, getD_set_ne _ hin, getD_set_ne _ hjn]

theorem scanGroups_eq (poly : Polygon) (p : Nat) (groups : List Group) :
    scanGroups poly p groups =
      scanResult poly p groups (matchesBelow poly groups groups.length) :=
  scanUpTo_eq poly p groups groups.length

theorem processPolygon_eq (groups : List Group) (p : Nat) (poly : Polygon) :
    processPolygon groups p poly =
      match matchesBelow poly groups groups.length with
      | [] => groups ++ [Group.empty.addPolygon p poly]
      | i :: m => (scanResult poly p groups (i :: m)).1 := by
  unfold processPolygon
  rw [scanGroups_eq]
  match matchesBelow poly groups groups.length with
  | [] => rfl
  | [i] => rfl
  | i :: j :: m => rfl

theorem groupsAfter_succ (polygons : List Polygon) (n : Nat) :
    groupsAfter polygons (n + 1) =
      processPolygon (groupsAfter polygons n) n (polygons[n]?.getD []) := by
  simp [groupsAfter, List.range_succ, List.foldl_append]

/-! ## Counting polygon indices: the partition property -/

theorem polyCount_set (i : Nat) (groups : List Group) (k : Nat) (x : Group)
    (h : k < groups.length) :
    polyCount i (groups.set k x) + (groups[k]?.getD default).polygons.count i =
      polyCount i groups + x.polygons.count i :=
  sum_map_set (fun g => g.polygons.count i) groups k x default h

theorem polyCount_processPolygon (i : Nat) (groups : List Group) (p : Nat) (poly : Polygon) :
    polyCount i (processPolygon groups p poly) =
      polyCount i groups + (if i = p then 1 else 0) := by
  rw [processPolygon_eq]
  have hmem : ∀ a ∈ matchesBelow poly groups groups.length, a < groups.length :=
    fun a ha => (mem_matchesBelow ha).1
  have hp : List.count i [p] = if i = p then 1 else 0 := by
    by_cases h : i = p
    · subst h; simp
    · simp [h, List.count_singleton, Ne.symm h]
  match hm : matchesBelow poly groups groups.length with
  | [] =>
    simp only [polyCount, List.map_append, List.sum_append, List.map_cons, List.map_nil,
      List.sum_cons, List.sum_nil, Group.addPolygon, Group.empty, List.nil_append, hp]
    omega
  | [a] =>
    have ha := hmem a (by simp [hm])
    have h1 := polyCount_set i groups a ((groups[a]?.getD default).addPolygon p poly) ha
    simp only [Group.addPolygon, List.count_append, hp] at h1
    simp only [scanResult, Group.addPolygon]
    omega
  | a :: b :: m =>
    have ha := hmem a (by simp [hm])
    have hb := hmem b (by simp [hm])
    have hab : a ≠ b := by
      have hnd : (matchesBelow poly groups groups.length).Nodup :=
        (List.nodup_range _).filter _
      rw [hm] at hnd
      intro h
      simp [h] at hnd
    have h1 := polyCount_set i groups a Group.empty ha
    have h2 := polyCount_set i (groups.set a Group.empty) b
      { polygons := (groups[b]?.getD default).polygons ++
          ((groups[a]?.getD default).polygons ++ [p]),
        vertices := (usMerge (groups[b]?.getD default).vertices
          ((groups[a]?.getD default).addPolygon p poly).vertices).1 } (by simpa using hb)
    rw [getD_set_ne _ hab] at h2
    simp only [List.count_append, hp, Group.empty, List.count_nil] at h1 h2
    simp only [scanResult, Group.empty]
    omega

theorem polyCount_groupsAfter (polygons : List Polygon) (i n : Nat) :
    polyCount i (groupsAfter polygons n) = if i < n then 1 else 0 := by
  induction n with
  | zero => simp [groupsAfter, polyCount]
  | succ n ih =>
    rw [groupsAfter_succ, polyCount_processPolygon, ih]
    by_cases h1 : i < n
    · have : i ≠ n := Nat.ne_of_lt h1
      simp [h1, this, Nat.lt_succ_of_lt h1]
    · by_cases h2 : i = n
      · simp [h2]
      · have : ¬ i < n + 1 := by omega
        simp [h1, h2, this]

theorem polyCount_pruneGroups (i : Nat) (groups : List Group) :
    polyCount i (pruneGroups groups) = polyCount i groups := by
  induction groups with
  | nil => rfl
  | cons g gs ih =>
    simp only [polyCount, pruneGroups] at ih ⊢
    rw [List.filter_cons]
    by_cases h : g.polygons = []
    · simp [h, ih]
    · have : (!g.polygons.isEmpty) = true := by simpa using h
      simp [this, ih]

theorem polyCount_DivideForEachUv (polygons : List Polygon) (i : Nat) :
    polyCount i (DivideForEachUv polygons) = if i < polygons.length then 1 else 0 := by
  rw [DivideForEachUv, polyCount_pruneGroups, polyCount_groupsAfter]

theorem sum_eq_one_unique (l : List Nat) (h : l.sum = 1) :
    ∃ k, k < l.length ∧ ∀ k', k' < l.length → l[k']?.getD 0 = if k' = k then 1 else 0 := by
  induction l with
  | nil => simp at h
  | cons a l ih =>
    rw [List.sum_cons] at h
    by_cases ha : a = 0
    · obtain ⟨k, hk, hall⟩ := ih (by omega)
      refine ⟨k + 1, by simpa using hk, ?_⟩
      intro k' hk'
      cases k' with
      | zero => simp [ha]
      | succ k' =>
        have := hall k' (by simpa using hk')
        simpa using this
    · have hl : l.sum = 0 := by omega
      have ha1 : a = 1 := by omega
      refine ⟨0, by simp, ?_⟩
      intro k' hk'
      cases k' with
      | zero => simp [ha1]
      | succ k' =>
        have hk'' : k' < l.length := by simpa using hk'
        have hz : l[k'] = 0 := by
          have hmem : l[k'] ∈ l := List.getElem_mem hk''
          have := List.sum_eq_zero_iff.1 hl
          exact this _ hmem
        simp [List.getElem?_eq_getElem hk'', hz]

theorem polyCount_zero_of_mem {i : Nat} {groups : List Group} (h : polyCount i groups = 0)
    {g : Group} (hg : g ∈ groups) : i ∉ g.polygons := by
  have := List.sum_eq_zero_iff.1 h (g.polygons.count i) (List.mem_map_of_mem _ hg)
  exact List.count_eq_zero.1 this

/-! ## The invariant of the grouping pass -/

theorem shares_symm (polygons : List Polygon) : Symmetric (Shares polygons) := by
  rintro a b ⟨ha, hb, h⟩
  refine ⟨hb, ha, ?_⟩
  rw [sharesKey_iff] at h ⊢
  obtain ⟨k, h1, h2⟩ := h
  exact ⟨k, h2, h1⟩

theorem linked_symm (polygons : List Polygon) {a b : Nat} (h : Linked polygons a b) :
    Linked polygons b a :=
  Relation.ReflTransGen.symmetric (shares_symm polygons) h

theorem getD_mem_of_lt (groups : List Group) {k : Nat} (h : k < groups.length) :
    groups[k]?.getD default ∈ groups := by
  rw [List.getElem?_eq_getElem h]
  exact List.getElem_mem h

theorem GroupsInv.mono {polygons : List Polygon} {n m : Nat} {groups : List Group}
    (h : GroupsInv polygons n groups) (hnm : n ≤ m) : GroupsInv polygons m groups :=
  fun g hg => ⟨fun a ha => Nat.lt_of_lt_of_le ((h g hg).1 a ha) hnm, (h g hg).2⟩

theorem GroupsInv.set {polygons : List Polygon} {n : Nat} {groups : List Group}
    (h : GroupsInv polygons n groups) (k : Nat) {x : Group}
    (hx : GroupBelow n x ∧ GroupLinked polygons x ∧ KeysExact polygons x) :
    GroupsInv polygons n (groups.set k x) := by
  intro g hg
  rcases List.mem_or_eq_of_mem_set hg with h1 | h1
  · exact h g h1
  · rw [h1]; exact hx

theorem groupOK_empty (polygons : List Polygon) (n : Nat) :
    GroupBelow n Group.empty ∧ GroupLinked polygons Group.empty ∧
      KeysExact polygons Group.empty := by
  refine ⟨?_, ?_, ?_⟩
  · intro a ha; simp [Group.empty] at ha
  · intro a ha; simp [Group.empty] at ha
  · intro k; simp [Group.empty, keysOf]

/-- A polygon that belongs to a group of a list satisfying the invariant is
linked to every polygon the group holds. -/
theorem linked_of_belongs {polygons : List Polygon} {n : Nat} (hn : n < polygons.length)
    {g : Group} (hg : GroupBelow n g ∧ GroupLinked polygons g ∧ KeysExact polygons g)
    (hb : g.polygonBelongs (polygons[n]?.getD []) = true) :
    ∀ x ∈ g.polygons, Linked polygons x n := by
  intro x hx
  obtain ⟨k, hk1, hk2⟩ := (polygonBelongs_iff _ _).1 hb
  obtain ⟨q, hq, hkq⟩ := (hg.2.2 k).1 hk2
  have hqn : q < n := hg.1 q hq
  have hs : Shares polygons q n :=
    ⟨Nat.lt_trans hqn hn, hn, (sharesKey_iff _ _).2 ⟨k, hkq, hk1⟩⟩
  exact Relation.ReflTransGen.tail (hg.2.1 x hx q hq) hs

theorem groupOK_addPolygon {polygons : List Polygon} {n : Nat}
    {g : Group} (hg : GroupBelow n g ∧ GroupLinked polygons g ∧ KeysExact polygons g)
    (hl : ∀ x ∈ g.polygons, Linked polygons x n) :
    GroupBelow (n + 1) (g.addPolygon n (polygons[n]?.getD [])) ∧
      GroupLinked polygons (g.addPolygon n (polygons[n]?.getD [])) ∧
      KeysExact polygons (g.addPolygon n (polygons[n]?.getD [])) := by
  refine ⟨?_, ?_, ?_⟩
  · intro a ha
    simp only [Group.addPolygon, List.mem_append, List.mem_singleton] at ha
    rcases ha with ha | ha
    · exact Nat.lt_succ_of_lt (hg.1 a ha)
    · omega
  · intro a ha b hb
    simp only [Group.addPolygon, List.mem_append, List.mem_singleton] at ha hb
    rcases ha with ha | ha <;> rcases hb with hb | hb
    · exact hg.2.1 a ha b hb
    · rw [hb]; exact hl a ha
    · rw [ha]; exact linked_symm polygons (hl b hb)
    · rw [ha, hb]; exact Relation.ReflTransGen.refl
  · intro k
    simp only [Group.addPolygon, mem_keysOf_foldl_usInsert, hg.2.2 k, List.mem_append,
      List.mem_singleton]
    constructor
    · rintro (⟨a, ha, h⟩ | h)
      · exact ⟨a, Or.inl ha, h⟩
      · exact ⟨n, Or.inr rfl, h⟩
    · rintro ⟨a, ha | ha, h⟩
      · exact Or.inl ⟨a, ha, h⟩
      · rw [ha] at h; exact Or.inr h

theorem groupOK_merged {polygons : List Polygon} {n : Nat}
    {g h : Group} (hg : GroupBelow n g ∧ GroupLinked polygons g ∧ KeysExact polygons g)
    (hh : GroupBelow n h ∧ GroupLinked polygons h ∧ KeysExact polygons h)
    (hlg : ∀ x ∈ g.polygons, Linked polygons x n)
    (hlh : ∀ x ∈ h.polygons, Linked polygons x n) (x : Group)
    (hxp : x.polygons = h.polygons ++ (g.polygons ++ [n]))
    (hxv : x.vertices =
      (usMerge h.vertices (g.addPolygon n (polygons[n]?.getD [])).vertices).1) :
    GroupBelow (n + 1) x ∧ GroupLinked polygons x ∧ KeysExact polygons x := by
  have hall : ∀ a ∈ x.polygons, a < n + 1 ∧ Linked polygons a n := by
    intro a ha
    rw [hxp] at ha
    simp only [List.mem_append, List.mem_singleton] at ha
    rcases ha with ha | ha | ha
    · exact ⟨Nat.lt_succ_of_lt (hh.1 a ha), hlh a ha⟩
    · exact ⟨Nat.lt_succ_of_lt (hg.1 a ha), hlg a ha⟩
    · rw [ha]; exact ⟨Nat.lt_succ_self n, Relation.ReflTransGen.refl⟩
  refine ⟨fun a ha => (hall a ha).1, ?_, ?_⟩
  · intro a ha b hb
    exact Relation.ReflTransGen.trans (hall a ha).2 (linked_symm polygons (hall b hb).2)
  · intro k
    rw [hxv, hxp, mem_keysOf_usMerge, (groupOK_addPolygon hg hlg).2.2 k, hh.2.2 k]
    simp only [Group.addPolygon, List.mem_append, List.mem_singleton]
    constructor
    · rintro (⟨a, ha, h1⟩ | ⟨a, ha, h1⟩)
      · exact ⟨a, Or.inl ha, h1⟩
      · exact ⟨a, Or.inr ha, h1⟩
    · rintro ⟨a, ha | ha, h1⟩
      · exact Or.inl ⟨a, ha, h1⟩
      · exact Or.inr ⟨a, ha, h1⟩

theorem GroupsInv.processPolygon {polygons : List Polygon} {n : Nat} {groups : List Group}
    (h : GroupsInv polygons n groups) (hn : n < polygons.length) :
    GroupsInv polygons (n + 1) (processPolygon groups n (polygons[n]?.getD [])) := by
  rw [processPolygon_eq]
  have h' : GroupsInv polygons (n + 1) groups := h.mono (Nat.le_succ n)
  have hmem : ∀ a ∈ matchesBelow (polygons[n]?.getD []) groups groups.length,
      (groups[a]?.getD default) ∈ groups ∧
        (groups[a]?.getD default).polygonBelongs (polygons[n]?.getD []) = true :=
    fun a ha => ⟨getD_mem_of_lt groups (mem_matchesBelow ha).2.1, (mem_matchesBelow ha).2.2⟩
  match hm : matchesBelow (polygons[n]?.getD []) groups groups.length with
  | [] =>
    intro g hg
    simp only [List.mem_append, List.mem_singleton] at hg
    rcases hg with hg | hg
    · exact h' g hg
    · rw [hg]
      refine groupOK_addPolygon (groupOK_empty polygons n) ?_
      intro x hx
      simp [Group.empty] at hx
  | [a] =>
    have ha := hmem a (by simp [hm])
    exact h'.set a (groupOK_addPolygon (h _ ha.1) (linked_of_belongs hn (h _ ha.1) ha.2))
  | a :: b :: m =>
    have ha := hmem a (by simp [hm])
    have hb := hmem b (by simp [hm])
    exact (h'.set a (groupOK_empty polygons (n + 1))).set b
      (groupOK_merged (h _ ha.1) (h _ hb.1) (linked_of_belongs hn (h _ ha.1) ha.2)
        (linked_of_belongs hn (h _ hb.1) hb.2) _ rfl rfl)

theorem groupsInv_groupsAfter (polygons : List Polygon) (n : Nat) (hn : n ≤ polygons.length) :
    GroupsInv polygons n (groupsAfter polygons n) := by
  induction n with
  | zero =>
    intro g hg
    simp [groupsAfter] at hg
  | succ n ih =>
    rw [groupsAfter_succ]
    exact (ih (Nat.le_of_succ_le hn)).processPolygon hn

theorem groupsInv_DivideForEachUv (polygons : List Polygon) :
    GroupsInv polygons polygons.length (DivideForEachUv polygons) := by
  intro g hg
  simp only [DivideForEachUv, pruneGroups, List.mem_filter] at hg
  exact groupsInv_groupsAfter polygons polygons.length (Nat.le_refl _) g hg.1

/-! ## A polygon that matches exactly two groups -/

theorem matchesBelow_eq_pair {poly : Polygon} {groups : List Group} {i j : Nat}
    (hij : i < j)
    (hi : (groups[i]?.getD default).polygonBelongs poly = true)
    (hj : (groups[j]?.getD default).polygonBelongs poly = true)
    (hothers : ∀ k, k < groups.length → k ≠ i → k ≠ j →
      (groups[k]?.getD default).polygonBelongs poly = false) :
    matchesBelow poly groups groups.length = [i, j] := by
  have hs1 : List.Sorted (fun a b : Nat => a < b) (matchesBelow poly groups groups.length) :=
    (List.sorted_lt_range _).filter _
  have hs2 : List.Sorted (fun a b : Nat => a < b) [i, j] := by simp [hij]
  refine List.eq_of_perm_of_sorted ?_ hs1 hs2
  have hnd : (matchesBelow poly groups groups.length).Nodup := (List.nodup_range _).filter _
  refine (List.perm_ext_iff_of_nodup hnd (by simp [Nat.ne_of_lt hij])).2 ?_
  intro a
  simp only [matchesBelow, List.mem_filter, List.mem_range, List.mem_cons, List.mem_singleton,
    List.not_mem_nil, or_false]
  constructor
  · rintro ⟨ha, hb⟩
    by_contra hne
    push_neg at hne
    rw [hothers a ha hne.1 hne.2] at hb
    exact Bool.false_ne_true hb
  · rintro (h | h)
    · rw [h]; exact ⟨belongs_lt_length hi, hi⟩
    · rw [h]; exact ⟨belongs_lt_length hj, hj⟩

theorem processPolygon_two_matches {poly : Polygon} {groups : List Group} {i j : Nat}
    (p : Nat) (hm : matchesBelow poly groups groups.length = [i, j]) :
    processPolygon groups p poly =
      (groups.set i Group.empty).set j
        { polygons := (groups[j]?.getD default).polygons ++
            ((groups[i]?.getD default).polygons ++ [p]),
          vertices := (usMerge (groups[j]?.getD default).vertices
            ((groups[i]?.getD default).addPolygon p poly).vertices).1 } := by
  rw [processPolygon_eq, hm]
  rfl

/-! ## Claims about the partitioners -/

/-- C1: for every polygon store the output of the UV-group partitioner is a
partition of the polygon indices `0 .. P-1`: no output group is empty; every
index below `P` occurs in exactly one group (position `k`) and exactly once
inside it; every index held by a group is below `P`; and the empty store
yields no group. -/
theorem C1_uv_groups_partition (polygons : List Polygon) :
    (∀ g ∈ DivideForEachUv polygons, g.polygons ≠ []) ∧
    (∀ i, i < polygons.length →
      ∃ k, k < (DivideForEachUv polygons).length ∧
        ((DivideForEachUv polygons)[k]?.getD default).polygons.count i = 1 ∧
        ∀ k', k' < (DivideForEachUv polygons).length →
          i ∈ ((DivideForEachUv polygons)[k']?.getD default).polygons → k' = k) ∧
    (∀ g ∈ DivideForEachUv polygons, ∀ i ∈ g.polygons, i < polygons.length) ∧
    DivideForEachUv [] = [] := by
  refine ⟨?_, ?_, ?_, rfl⟩
  · intro g hg
    simp only [DivideForEachUv, pruneGroups, List.mem_filter] at hg
    simpa using hg.2
  · intro i hi
    have hc := polyCount_DivideForEachUv polygons i
    rw [if_pos hi] at hc
    obtain ⟨k, hk, hall⟩ := sum_eq_one_unique _ hc
    rw [List.length_map] at hk
    have hget : ∀ k', k' < (DivideForEachUv polygons).length →
        ((DivideForEachUv polygons).map (fun g => g.polygons.count i))[k']?.getD 0 =
          ((DivideForEachUv polygons)[k']?.getD default).polygons.count i := by
      intro k' hk'
      simp [List.getElem?_eq_getElem hk']
    refine ⟨k, hk, ?_, ?_⟩
    · rw [← hget k hk, hall k (by simpa using hk)]
      simp
    · intro k' hk' hmem
      by_contra hne
      have h0 := hall k' (by simpa using hk')
      rw [hget k' hk', if_neg hne] at h0
      exact List.count_eq_zero.1 h0 hmem
  · intro g hg i hi
    by_contra hlt
    have hc := polyCount_DivideForEachUv polygons i
    rw [if_neg hlt] at hc
    exact polyCount_zero_of_mem hc hg hi

/-- The specification's concrete case: A and B share the key (3,3) and form the
first group, C forms the second. -/
theorem abcStore_uv_groups :
    (DivideForEachUv abcStore).map (fun g => g.polygons) = [[0, 1], [2]] := by
  decide

/-- C2 (the code at the failing input): a polygon that touches three groups is
merged with the first two only. On `bridgeStore` the partitioner returns the
groups `[1, 0, 3]` and `[2]`, although polygons 3 and 2 share the key (7,7):
the two output groups have a vertex key in common. -/
theorem C2_bridge_of_three_not_merged :
    (DivideForEachUv bridgeStore).map (fun g => g.polygons) = [[1, 0, 3], [2]] ∧
    Shares bridgeStore 3 2 ∧
    (7, 7) ∈ keysOf ((DivideForEachUv bridgeStore)[0]?.getD default).vertices ∧
    (7, 7) ∈ keysOf ((DivideForEachUv bridgeStore)[1]?.getD default).vertices := by
  decide

theorem foldl_polyStep (polygons : List Polygon) (n : Nat) :
    (List.range n).foldl (polyStep polygons) [] =
      (List.range n).map (fun p => Group.empty.addPolygon p (polygons[p]?.getD [])) := by
  induction n with
  | zero => rfl
  | succ n ih =>
    rw [List.range_succ, List.foldl_append, ih]
    simp [polyStep]

/-- C6: per-polygon mode yields exactly `P` groups and the `i`-th group's
polygon list is `[i]`; on the specification's store A, B, C it yields the three
singleton groups. -/
theorem C6_per_polygon_singletons (polygons : List Polygon) :
    (DivideForEachPoly polygons).length = polygons.length ∧
    (∀ i, i < polygons.length →
      ((DivideForEachPoly polygons)[i]?.getD default).polygons = [i]) ∧
    (DivideForEachPoly abcStore).map (fun g => g.polygons) = [[0], [1], [2]] := by
  refine ⟨?_, ?_, by decide⟩
  · simp [DivideForEachPoly, foldl_polyStep]
  · intro i hi
    simp [DivideForEachPoly, foldl_polyStep, hi, Group.addPolygon, Group.empty]

/-- C3: two polygons held by the same output group of the UV-group partitioner
are polygons of the store connected by a chain of polygons of the store, each
sharing a (positionIndex, uvIndex) pair with the next. -/
theorem C3_same_group_linked (polygons : List Polygon) (g : Group) (a b : Nat)
    (hg : g ∈ DivideForEachUv polygons) (ha : a ∈ g.polygons) (hb : b ∈ g.polygons) :
    a < polygons.length ∧ b < polygons.length ∧ Linked polygons a b :=
  ⟨(groupsInv_DivideForEachUv polygons g hg).1 a ha,
   (groupsInv_DivideForEachUv polygons g hg).1 b hb,
   (groupsInv_DivideForEachUv polygons g hg).2.1 a ha b hb⟩

/-- C3 at the specification's store: polygons A and B, both in the first
output group, are linked. -/
theorem C3_same_group_linked_witness :
    0 < abcStore.length ∧ 1 < abcStore.length ∧ Linked abcStore 0 1 :=
  C3_same_group_linked abcStore ((DivideForEachUv abcStore)[0]?.getD default) 0 1
    (by decide) (by decide) (by decide)

/-- C4: when the next polygon `n` belongs to exactly two groups, at positions
`i < j`, of the group list reached after `n` polygons, then after `n` is
processed the list has the same length, the group at `j` holds the polygons of
both groups and `n`, the group at `i` is empty, every other group is unchanged,
and the group at `j` is the only one that holds `n`. -/
theorem C4_bridge_merges_two_groups (polygons : List Polygon) (n i j : Nat)
    (hn : n < polygons.length) (hij : i < j)
    (hi : ((groupsAfter polygons n)[i]?.getD default).polygonBelongs
      (polygons[n]?.getD []) = true)
    (hj : ((groupsAfter polygons n)[j]?.getD default).polygonBelongs
      (polygons[n]?.getD []) = true)
    (hothers : ∀ k, k < (groupsAfter polygons n).length → k ≠ i → k ≠ j →
      ((groupsAfter polygons n)[k]?.getD default).polygonBelongs
        (polygons[n]?.getD []) = false) :
    (groupsAfter polygons (n + 1)).length = (groupsAfter polygons n).length ∧
    ((groupsAfter polygons (n + 1))[j]?.getD default).polygons =
      ((groupsAfter polygons n)[j]?.getD default).polygons ++
        (((groupsAfter polygons n)[i]?.getD default).polygons ++ [n]) ∧
    (groupsAfter polygons (n + 1))[i]?.getD default = Group.empty ∧
    (∀ k, k ≠ i → k ≠ j →
      (groupsAfter polygons (n + 1))[k]? = (groupsAfter polygons n)[k]?) ∧
    (∀ k, n ∈ ((groupsAfter polygons (n + 1))[k]?.getD default).polygons ↔ k = j) := by
  have hm := matchesBelow_eq_pair hij hi hj hothers
  have hil := belongs_lt_length hi
  have hjl := belongs_lt_length hj
  have hne : i ≠ j := Nat.ne_of_lt hij
  have hinv := groupsInv_groupsAfter polygons n (Nat.le_of_lt hn)
  have hfresh : ∀ k : Nat, ¬ n ∈ ((groupsAfter polygons n)[k]?.getD default).polygons := by
    intro k hk
    by_cases hkl : k < (groupsAfter polygons n).length
    · exact Nat.lt_irrefl n ((hinv _ (getD_mem_of_lt _ hkl)).1 n hk)
    · rw [List.getElem?_eq_none (Nat.le_of_not_lt hkl)] at hk
      simp [default, Group.empty] at hk
  rw [groupsAfter_succ, processPolygon_two_matches n hm]
  refine ⟨by simp, ?_, ?_, ?_, ?_⟩
  · rw [getD_set_self _ (by simpa using hjl)]
  · rw [getD_set_ne _ hne.symm, getD_set_self _ hil]
  · intro k hki hkj
    rw [List.getElem?_set_ne (Ne.symm hkj), List.getElem?_set_ne (Ne.symm hki)]
  · intro k
    by_cases hkj : k = j
    · subst hkj
      rw [getD_set_self _ (by simpa using hjl)]
      simp
    · by_cases hki : k = i
      · subst hki
        rw [getD_set_ne _ (Ne.symm hkj), getD_set_self _ hil]
        simp [Group.empty, hkj]
      · rw [getD_set_ne _ (Ne.symm hkj), getD_set_ne _ (Ne.symm hki)]
        simp [hkj, hfresh k]

/-- C4 at `twoIslandsStore`: the third triangle belongs to the two groups made
by the first two, and the group at position 1 ends up holding all three. -/
theorem C4_bridge_merges_two_groups_witness :
    (groupsAfter twoIslandsStore 3).length = (groupsAfter twoIslandsStore 2).length ∧
    ((groupsAfter twoIslandsStore 3)[1]?.getD default).polygons =
      ((groupsAfter twoIslandsStore 2)[1]?.getD default).polygons ++
        (((groupsAfter twoIslandsStore 2)[0]?.getD default).polygons ++ [2]) ∧
    (groupsAfter twoIslandsStore 3)[0]?.getD default = Group.empty ∧
    (∀ k, k ≠ 0 → k ≠ 1 →
      (groupsAfter twoIslandsStore 3)[k]? = (groupsAfter twoIslandsStore 2)[k]?) ∧
    (∀ k, 2 ∈ ((groupsAfter twoIslandsStore 3)[k]?.getD default).polygons ↔ k = 1) :=
  C4_bridge_merges_two_groups twoIslandsStore 2 0 1 (by decide) (by decide) (by decide)
    (by decide) (by decide)

/-! ## Header collection and text generation -/

theorem compareIsZero_eq_isPrefixOf (line : List Char) (n : Nat) (str : List Char)
    (hn : str.length = n) : compareIsZero line n str = str.isPrefixOf line := by
  rw [Bool.eq_iff_iff, List.isPrefixOf_iff_prefix, List.prefix_iff_eq_take, hn]
  unfold compareIsZero
  rw [beq_iff_eq]
  exact eq_comm

theorem usemtl_excludes (line : List Char) (hu : "usemtl".toList.isPrefixOf line = true) :
    "#".toList.isPrefixOf line = false ∧ "mtllib".toList.isPrefixOf line = false := by
  cases line with
  | nil => exact ⟨rfl, rfl⟩
  | cons c cs =>
    have hc : c = 'u' := by
      have h : ('u' == c) = true := (Bool.and_eq_true_iff.1 hu).1
      exact (beq_iff_eq.1 h).symm
    subst hc
    exact ⟨rfl, rfl⟩

theorem headerLoop_cons (line : List Char) (rest text : List (List Char)) :
    headerLoop (line :: rest) text =
      if (!"#".toList.isPrefixOf line && !"mtllib".toList.isPrefixOf line) = true then
        if "usemtl".toList.isPrefixOf line = true then text
        else headerLoop rest (text ++ [line])
      else headerLoop rest text := by
  rw [headerLoop, compareIsZero_eq_isPrefixOf line 1 "#".toList rfl,
    compareIsZero_eq_isPrefixOf line 6 "mtllib".toList rfl,
    compareIsZero_eq_isPrefixOf line 6 "usemtl".toList rfl]

theorem headerLoop_eq (lines text : List (List Char)) :
    headerLoop lines text = text ++
      ((lines.takeWhile (fun l => !"usemtl".toList.isPrefixOf l)).filter
        (fun l => !"#".toList.isPrefixOf l && !"mtllib".toList.isPrefixOf l)) := by
  induction lines generalizing text with
  | nil => rw [headerLoop]; exact (List.append_nil text).symm
  | cons line rest ih =>
    rw [headerLoop_cons, List.takeWhile_cons]
    cases hu : "usemtl".toList.isPrefixOf line with
    | true =>
      obtain ⟨h1, h2⟩ := usemtl_excludes line hu
      simp only [h1, h2, Bool.not_false, Bool.and_self, if_true, Bool.not_true,
        Bool.false_eq_true, if_false, List.filter_nil, List.append_nil]
    | false =>
      cases hk : (!"#".toList.isPrefixOf line && !"mtllib".toList.isPrefixOf line) with
      | true =>
        simp only [Bool.not_false, if_true, Bool.false_eq_true, if_false, ih, List.filter_cons,
          hk, List.append_assoc, List.singleton_append]
      | false =>
        simp only [Bool.not_false, if_true, Bool.false_eq_true, if_false, ih, List.filter_cons,
          hk]

/-- C10: the copied header is the lines before the first line starting with
`usemtl` (all lines when there is none), without the lines starting with `#`
or `mtllib`, every other line kept verbatim and in order; the console program
pushes the same lines after the two lines `objFileText` starts with. -/
theorem C10_header_collection (lines text : List (List Char)) :
    ReadBaseObjData lines =
      (lines.takeWhile (fun l => !"usemtl".toList.isPrefixOf l)).filter
        (fun l => !"#".toList.isPrefixOf l && !"mtllib".toList.isPrefixOf l) ∧
    headerLoop lines text = text ++ ReadBaseObjData lines := by
  constructor
  · rw [ReadBaseObjData, headerLoop_eq, List.nil_append]
  · rw [ReadBaseObjData, headerLoop_eq, headerLoop_eq, List.nil_append]

theorem foldl_append_eq {α β : Type} (f : α → List β) (l : List α) (init : List β) :
    l.foldl (fun acc x => acc ++ f x) init = init ++ (l.map f).flatten := by
  induction l generalizing init with
  | nil => simp
  | cons a l ih => simp [ih]

theorem foldl_push_eq {α β : Type} (f : α → β) (l : List α) (init : List β) :
    l.foldl (fun acc x => acc ++ [f x]) init = init ++ l.map f := by
  induction l generalizing init with
  | nil => simp
  | cons a l ih => simp [ih]

theorem faceLine_eq (polygon : Polygon) :
    faceLine polygon = 'f' :: (polygon.map vertexText).flatten := by
  rw [faceLine, foldl_append_eq]
  rfl

theorem emitFaces_eq (polygons : List Polygon) (text : List (List Char)) (idxs : List Nat) :
    emitFaces polygons text idxs =
      text ++ idxs.map (fun p => faceLine (polygons[p]?.getD [])) :=
  foldl_push_eq _ idxs text

theorem objBodyFrom_eq (polygons : List Polygon) (groups : List Group)
    (text : List (List Char)) :
    objBodyFrom polygons groups text = text ++
      ((List.range groups.length).map (fun g =>
        ["usemtl Material.".toList ++ to_string g, "s off".toList] ++
          (groups[g]?.getD default).polygons.map
            (fun p => faceLine (polygons[p]?.getD [])))).flatten := by
  have h : emitGroupObj polygons groups = fun text g => text ++
      (["usemtl Material.".toList ++ to_string g, "s off".toList] ++
        (groups[g]?.getD default).polygons.map
          (fun p => faceLine (polygons[p]?.getD []))) := by
    funext text g
    rw [emitGroupObj, emitFaces_eq, List.append_assoc]
  rw [objBodyFrom, h, foldl_append_eq]

/-- C8: the generated OBJ body is, for each group position `i` in list order,
the line `usemtl Material.<i>`, the line `s off` and one line per polygon index
of the group, in the group's stored order, made of `f` followed by
` <pos>/<uv>/<normal>` for each vertex of that polygon in order; nothing else.
(A polygon index is looked up in the store; the partitioner only stores
indices of the store.) -/
theorem C8_obj_body_layout (polygons : List Polygon) (groups : List Group) :
    objBody polygons groups = specObjBody polygons groups := by
  rw [objBody, objBodyFrom_eq, List.nil_append, specObjBody]
  congr 1
  apply List.map_congr_left
  intro g _
  congr 1
  apply List.map_congr_left
  intro p _
  rw [faceLine_eq]
  congr 2

/-- The exit code of the console `main` never depends on whether the output
files can be opened: it is 1 for a missing argument, an unreadable input or an
input without face lines, and 0 otherwise. -/
theorem main_exitCode (argv : List (List Char)) (fs : FileSystem) :
    (main argv fs).exitCode =
      if argv.length < 2 then 1
      else match fs.lines (argv[1]?.getD []) with
        | none => 1
        | some lines => if (ReadPolygons lines).isEmpty then 1 else 0 := by
  unfold main
  split
  · rfl
  · split
    · rfl
    · split <;> rfl

/-- C9 (the code at the failing input): with a readable input holding a face
line and no file that can be opened for writing, the console `main` returns
exit code 0 and writes neither `output.obj` nor `output.mtl`. -/
theorem C9_write_failure_returns_zero :
    (main ["AutoMaterials".toList, "in.obj".toList] readOnlyFs).exitCode = 0 ∧
    (main ["AutoMaterials".toList, "in.obj".toList] readOnlyFs).written = [] := by
  decide

/-! ## The face-line reader -/

theorem skipWs_length_le (s : List Char) : (skipWs s).length ≤ s.length :=
  (List.dropWhile_sublist _).length_le

theorem readChar_length {s rest : List Char} {c : Char} (h : readChar s = some (c, rest)) :
    rest.length < s.length := by
  unfold readChar at h
  have hle := skipWs_length_le s
  split at h
  · exact absurd h (by simp)
  · rename_i c' rest' heq
    rw [heq] at hle
    simp only [Option.some.injEq, Prod.mk.injEq] at h
    rw [← h.2]
    simpa using hle

theorem stripSign_length_le (s : List Char) : (stripSign s).length ≤ s.length := by
  unfold stripSign
  split
  · rw [List.length_tail]
    exact Nat.sub_le _ _
  · exact Nat.le_refl _

theorem readUnsigned_some {s rest : List Char} {n : Nat} (h : readUnsigned s = some (n, rest)) :
    ∃ s2 : List Char, s2.length ≤ s.length ∧ s2.takeWhile isDigit ≠ [] ∧
      rest = s2.dropWhile isDigit := by
  unfold readUnsigned at h
  by_cases hds : ((stripSign (skipWs s)).takeWhile isDigit).isEmpty = true
  · rw [if_pos hds] at h
    exact absurd h (by simp)
  · rw [if_neg hds] at h
    by_cases hov : decimalValue ((stripSign (skipWs s)).takeWhile isDigit) > UINT_MAX_VAL
    · rw [if_pos hov] at h
      exact absurd h (by simp)
    · rw [if_neg hov] at h
      simp only [Option.some.injEq, Prod.mk.injEq] at h
      exact ⟨_, Nat.le_trans (stripSign_length_le _) (skipWs_length_le s),
        by simpa using hds, h.2.symm⟩

theorem readUnsigned_length {s rest : List Char} {n : Nat}
    (h : readUnsigned s = some (n, rest)) : rest.length < s.length := by
  obtain ⟨s2, hle, hne, hrest⟩ := readUnsigned_some h
  have hlen := congrArg List.length (List.takeWhile_append_dropWhile isDigit s2)
  rw [List.length_append] at hlen
  have hpos : 0 < (s2.takeWhile isDigit).length := List.length_pos.2 hne
  rw [hrest]
  omega

theorem readVertex_length {s rest : List Char} {v : Vertex}
    (h : readVertex s = some (v, rest)) : rest.length < s.length := by
  unfold readVertex at h
  split at h
  · exact absurd h (by simp)
  · rename_i pos s1 h1
    split at h
    · exact absurd h (by simp)
    · rename_i c1 s2 h2
      split at h
      · exact absurd h (by simp)
      · rename_i uv s3 h3
        split at h
        · exact absurd h (by simp)
        · rename_i c2 s4 h4
          split at h
          · exact absurd h (by simp)
          · rename_i normal s5 h5
            simp only [Option.some.injEq, Prod.mk.injEq] at h
            have l1 := readUnsigned_length h1
            have l2 := readChar_length h2
            have l3 := readUnsigned_length h3
            have l4 := readChar_length h4
            have l5 := readUnsigned_length h5
            rw [← h.2]
            omega

theorem readVerticesFuel_enough (f1 f2 : Nat) (s : List Char) (h1 : s.length < f1)
    (h2 : s.length < f2) : readVerticesFuel f1 s = readVerticesFuel f2 s := by
  induction f1 generalizing f2 s with
  | zero => exact absurd h1 (Nat.not_lt_zero _)
  | succ f1 ih =>
    cases f2 with
    | zero => exact absurd h2 (Nat.not_lt_zero _)
    | succ f2 =>
      simp only [readVerticesFuel]
      cases hv : readVertex s with
      | none => rfl
      | some r =>
        obtain ⟨v, rest⟩ := r
        have hl := readVertex_length hv
        simp only
        rw [ih f2 rest (by omega) (by omega)]

/-- The reading loop never runs out of iterations: it stops exactly when an
extraction fails. -/
theorem readVertices_unfold (s : List Char) :
    readVertices s =
      match readVertex s with
      | none => []
      | some (v, rest) => v :: readVertices rest := by
  unfold readVertices
  rw [readVerticesFuel]
  cases hv : readVertex s with
  | none => rfl
  | some r =>
    obtain ⟨v, rest⟩ := r
    have hl := readVertex_length hv
    simp only
    rw [readVerticesFuel_enough s.length (rest.length + 1) rest hl (Nat.lt_succ_self _)]

theorem isDigit_not_space {c : Char} (h : isDigit c = true) :
    isSpace c = false ∧ c ≠ '-' ∧ c ≠ '+' := by
  simp only [isDigit, Bool.and_eq_true, decide_eq_true_eq] at h
  refine ⟨?_, ?_, ?_⟩
  · simp only [isSpace, Bool.or_eq_false_iff, beq_eq_false_iff_ne, ne_eq]
    refine ⟨⟨⟨⟨⟨?_, ?_⟩, ?_⟩, ?_⟩, ?_⟩, ?_⟩ <;> (rintro rfl; revert h; decide)
  · rintro rfl; revert h; decide
  · rintro rfl; revert h; decide

theorem takeWhile_digits_append (ds rest : List Char) (hds : ds.all isDigit = true)
    (hrest : rest.takeWhile isDigit = []) :
    (ds ++ rest).takeWhile isDigit = ds ∧ (ds ++ rest).dropWhile isDigit = rest := by
  induction ds with
  | nil =>
    refine ⟨hrest, ?_⟩
    have h := List.takeWhile_append_dropWhile isDigit rest
    rw [hrest, List.nil_append] at h
    exact h
  | cons d ds ih =>
    simp only [List.all_cons, Bool.and_eq_true] at hds
    obtain ⟨h1, h2⟩ := ih hds.2
    simp only [List.cons_append, List.takeWhile_cons, List.dropWhile_cons, hds.1, if_true, h1, h2,
      and_self]

theorem readUnsigned_number (ds rest : List Char) (hnum : isNumber ds = true)
    (hrest : rest.takeWhile isDigit = []) :
    readUnsigned (ds ++ rest) = some (decimalValue ds, rest) := by
  simp only [isNumber, Bool.and_eq_true, decide_eq_true_eq, Bool.not_eq_true',
    List.isEmpty_eq_false] at hnum
  obtain ⟨⟨hne, hall⟩, hval⟩ := hnum
  obtain ⟨htw, hdw⟩ := takeWhile_digits_append ds rest hall hrest
  cases ds with
  | nil => exact absurd rfl hne
  | cons d ds =>
    have hd : isDigit d = true := by
      simp only [List.all_cons, Bool.and_eq_true] at hall
      exact hall.1
    obtain ⟨hsp, hminus, hplus⟩ := isDigit_not_space hd
    have hskip : skipWs (d :: ds ++ rest) = d :: ds ++ rest := by
      simp only [skipWs, List.cons_append, List.dropWhile_cons, hsp, Bool.false_eq_true, if_false]
    have hm : ((d :: ds ++ rest).head? == some '-') = false := by
      simp only [List.cons_append, List.head?_cons, beq_eq_false_iff_ne, ne_eq,
        Option.some.injEq]
      exact hminus
    have hp : ((d :: ds ++ rest).head? == some '+') = false := by
      simp only [List.cons_append, List.head?_cons, beq_eq_false_iff_ne, ne_eq,
        Option.some.injEq]
      exact hplus
    have hstrip : stripSign (d :: ds ++ rest) = d :: ds ++ rest := by
      simp only [stripSign, hm, hp, Bool.or_self, Bool.false_eq_true, if_false]
    have hnov : ¬ decimalValue (d :: ds) > UINT_MAX_VAL := Nat.not_lt.2 hval
    simp only [readUnsigned, hskip, hstrip, htw, hdw, hm, List.isEmpty_cons, Bool.false_eq_true,
      if_false, hnov]

theorem readUnsigned_space (s : List Char) : readUnsigned (' ' :: s) = readUnsigned s := by
  have h : skipWs (' ' :: s) = skipWs s := rfl
  simp only [readUnsigned, h]

theorem readChar_slash (s : List Char) : readChar ('/' :: s) = some ('/', s) := rfl

theorem takeWhile_isDigit_slash (s : List Char) : ('/' :: s).takeWhile isDigit = [] := rfl

theorem takeWhile_isDigit_space (s : List Char) : (' ' :: s).takeWhile isDigit = [] := rfl

theorem readVertex_token (t : List Char × List Char × List Char) (rest : List Char)
    (ht : isNumber t.1 = true ∧ isNumber t.2.1 = true ∧ isNumber t.2.2 = true)
    (hrest : rest.takeWhile isDigit = []) :
    readVertex (tokenText t ++ rest) = some (tokenVertex t, rest) := by
  have h0 : tokenText t ++ rest = ' ' :: (t.1 ++ '/' :: (t.2.1 ++ '/' :: (t.2.2 ++ rest))) := by
    simp [tokenText]
  rw [h0, readVertex, readUnsigned_space,
    readUnsigned_number _ _ ht.1 (takeWhile_isDigit_slash _)]
  simp only [readChar_slash, readUnsigned_number _ _ ht.2.1 (takeWhile_isDigit_slash _),
    readUnsigned_number _ _ ht.2.2 hrest, tokenVertex]

theorem takeWhile_isDigit_tokens (tokens : List (List Char × List Char × List Char))
    (rest : List Char) (hrest : rest.takeWhile isDigit = []) :
    ((tokens.map tokenText).flatten ++ rest).takeWhile isDigit = [] := by
  cases tokens with
  | nil => simpa using hrest
  | cons t ts => rfl

theorem readVertices_tokens (tokens : List (List Char × List Char × List Char))
    (rest : List Char)
    (ht : ∀ t ∈ tokens, isNumber t.1 = true ∧ isNumber t.2.1 = true ∧ isNumber t.2.2 = true)
    (hrest : rest.takeWhile isDigit = []) :
    readVertices ((tokens.map tokenText).flatten ++ rest) =
      tokens.map tokenVertex ++ readVertices rest := by
  induction tokens with
  | nil => rfl
  | cons t ts ih =>
    have h1 : ((t :: ts).map tokenText).flatten ++ rest =
        tokenText t ++ ((ts.map tokenText).flatten ++ rest) := by
      simp
    rw [h1, readVertices_unfold,
      readVertex_token t _ (ht t (List.mem_cons_self _ _))
        (takeWhile_isDigit_tokens ts rest hrest)]
    simp only [List.map_cons, List.cons_append]
    rw [ih (fun t' h' => ht t' (List.mem_cons_of_mem _ h'))]

theorem readVertices_nil : readVertices [] = [] := rfl

theorem readVertices_malformed (c : Char) (text : List Char)
    (hc : isDigit c = false ∧ isSpace c = false ∧ c ≠ '+' ∧ c ≠ '-') :
    readVertices (' ' :: c :: text) = [] := by
  have hskip : skipWs (' ' :: c :: text) = c :: text := by
    have h : skipWs (' ' :: c :: text) = skipWs (c :: text) := rfl
    rw [h]
    simp only [skipWs, List.dropWhile_cons, hc.2.1, Bool.false_eq_true, if_false]
  have hm : ((c :: text).head? == some '-') = false := by
    simp only [List.head?_cons, beq_eq_false_iff_ne, ne_eq, Option.some.injEq]
    exact hc.2.2.2
  have hp : ((c :: text).head? == some '+') = false := by
    simp only [List.head?_cons, beq_eq_false_iff_ne, ne_eq, Option.some.injEq]
    exact hc.2.2.1
  have hstrip : stripSign (c :: text) = c :: text := by
    simp only [stripSign, hm, hp, Bool.or_self, Bool.false_eq_true, if_false]
  have hu : readUnsigned (' ' :: c :: text) = none := by
    simp only [readUnsigned, hskip, hstrip, List.takeWhile_cons, hc.1, Bool.false_eq_true,
      if_false, List.isEmpty_nil, if_true]
  rw [readVertices_unfold, readVertex, hu]

theorem readLine_face (store : List Polygon) (tail : List Char) :
    readLine store ('f' :: ' ' :: tail) = store ++ [readVertices (' ' :: tail)] := rfl

theorem tokens_then_space (tokens : List (List Char × List Char × List Char))
    (rest : List Char) :
    ∃ tail, (tokens.map tokenText).flatten ++ ' ' :: rest = ' ' :: tail := by
  cases tokens with
  | nil => exact ⟨rest, rfl⟩
  | cons t ts => exact ⟨_, rfl⟩

/-- C7: on a line made of `f`, then `k ≥ 0` well-formed tokens
` <pos>/<uv>/<normal>` (digit sequences with values up to `UINT_MAX_VAL`), then
a space and a character `c` that is no digit, sign or whitespace, then any
further text, the reader appends to the store exactly one polygon: the `k`
vertices of the well-formed tokens, in order. -/
theorem C7_reader_truncates (store : List Polygon)
    (tokens : List (List Char × List Char × List Char)) (c : Char) (text : List Char)
    (ht : ∀ t ∈ tokens, isNumber t.1 = true ∧ isNumber t.2.1 = true ∧ isNumber t.2.2 = true)
    (hc : isDigit c = false ∧ isSpace c = false ∧ c ≠ '+' ∧ c ≠ '-') :
    readLine store ('f' :: ((tokens.map tokenText).flatten ++ ' ' :: c :: text)) =
      store ++ [tokens.map tokenVertex] := by
  obtain ⟨tail, htail⟩ := tokens_then_space tokens (c :: text)
  have h1 : readLine store ('f' :: ((tokens.map tokenText).flatten ++ ' ' :: c :: text)) =
      store ++ [readVertices ((tokens.map tokenText).flatten ++ ' ' :: c :: text)] := by
    rw [htail]
    rfl
  rw [h1, readVertices_tokens tokens _ ht (takeWhile_isDigit_space _),
    readVertices_malformed c text hc, List.append_nil]

/-- C7 on the line `f 1/2/3 40/50/60 x 7/8/9`: the two leading vertices are
kept and the rest of the line is dropped. -/
theorem C7_reader_truncates_witness :
    readLine [] ('f' :: (([("1".toList, "2".toList, "3".toList),
        ("40".toList, "50".toList, "60".toList)].map tokenText).flatten ++
        ' ' :: 'x' :: " 7/8/9".toList)) =
      [] ++ [[("1".toList, "2".toList, "3".toList),
        ("40".toList, "50".toList, "60".toList)].map tokenVertex] :=
  C7_reader_truncates [] [("1".toList, "2".toList, "3".toList),
    ("40".toList, "50".toList, "60".toList)] 'x' " 7/8/9".toList (by decide) (by decide)

/-! ## Decimal output read back -/

theorem digitChar_props : ∀ k, k < 10 →
    isDigit (Nat.digitChar k) = true ∧ digitValue (Nat.digitChar k) = k := by
  decide

theorem decimalValue_append_singleton (ds : List Char) (d : Char) :
    decimalValue (ds ++ [d]) = 10 * decimalValue ds + digitValue d := by
  simp [decimalValue, List.foldl_append]

theorem toDigitsCore_append (fuel n : Nat) (ds : List Char) :
    Nat.toDigitsCore 10 fuel n ds = Nat.toDigitsCore 10 fuel n [] ++ ds := by
  induction fuel generalizing n ds with
  | zero => rfl
  | succ fuel ih =>
    simp only [Nat.toDigitsCore]
    split
    · rfl
    · rw [ih (n / 10) (Nat.digitChar (n % 10) :: ds), ih (n / 10) [Nat.digitChar (n % 10)]]
      simp

theorem toDigitsCore_props (fuel n : Nat) (h : n < fuel) :
    Nat.toDigitsCore 10 fuel n [] ≠ [] ∧
    (Nat.toDigitsCore 10 fuel n []).all isDigit = true ∧
    decimalValue (Nat.toDigitsCore 10 fuel n []) = n := by
  induction fuel generalizing n with
  | zero => exact absurd h (Nat.not_lt_zero _)
  | succ fuel ih =>
    have hd := digitChar_props (n % 10) (Nat.mod_lt _ (by decide))
    simp only [Nat.toDigitsCore]
    split
    · rename_i h0
      refine ⟨by simp, by simp [hd.1], ?_⟩
      have : decimalValue [Nat.digitChar (n % 10)] = digitValue (Nat.digitChar (n % 10)) := by
        simp [decimalValue]
      rw [this, hd.2]
      omega
    · rename_i h0
      have hlt : n / 10 < fuel := by omega
      obtain ⟨h1, h2, h3⟩ := ih (n / 10) hlt
      rw [toDigitsCore_append]
      refine ⟨by simp, ?_, ?_⟩
      · rw [List.all_append, h2]
        simp [hd.1]
      · rw [decimalValue_append_singleton, h3, hd.2]
        omega

theorem decimalValue_to_string (n : Nat) : decimalValue (to_string n) = n :=
  (toDigitsCore_props (n + 1) n (Nat.lt_succ_self n)).2.2

theorem isNumber_to_string (n : Nat) (h : n ≤ UINT_MAX_VAL) : isNumber (to_string n) = true := by
  obtain ⟨h1, h2, h3⟩ := toDigitsCore_props (n + 1) n (Nat.lt_succ_self n)
  simp only [isNumber, Bool.and_eq_true, decide_eq_true_eq, Bool.not_eq_true',
    List.isEmpty_eq_false]
  exact ⟨⟨h1, h2⟩, by rw [decimalValue_to_string]; exact h⟩

theorem vertexText_eq_tokenText (v : Vertex) :
    vertexText v = tokenText (to_string v.posIdx, to_string v.uvIdx, to_string v.normalIdx) := by
  simp [vertexText, tokenText]

theorem tokenVertex_to_string (v : Vertex) :
    tokenVertex (to_string v.posIdx, to_string v.uvIdx, to_string v.normalIdx) = v := by
  simp [tokenVertex, decimalValue_to_string]

theorem readLine_faceLine (store : List Polygon) (p : Polygon) (hp : p.all Vertex.fits = true) :
    readLine store (faceLine p) = if p.isEmpty then store else store ++ [p] := by
  cases p with
  | nil => rfl
  | cons v vs =>
    have hfl : faceLine (v :: vs) = 'f' :: ((((v :: vs).map (fun w =>
        (to_string w.posIdx, to_string w.uvIdx, to_string w.normalIdx))).map
          tokenText).flatten ++ []) := by
      rw [faceLine_eq, List.append_nil, List.map_map]
      congr 2
      apply List.map_congr_left
      intro w _
      exact vertexText_eq_tokenText w
    have hline : ∃ tail, faceLine (v :: vs) = 'f' :: ' ' :: tail := by
      rw [faceLine_eq]
      exact ⟨_, rfl⟩
    obtain ⟨tail, htail⟩ := hline
    have h1 : readLine store (faceLine (v :: vs)) =
        store ++ [readVertices (faceLine (v :: vs)).tail] := by
      rw [htail]
      rfl
    rw [h1, hfl, List.tail_cons, readVertices_tokens _ [] ?_ rfl, readVertices_nil,
      List.append_nil, List.map_map]
    · have hid : (v :: vs).map (tokenVertex ∘ fun w =>
          (to_string w.posIdx, to_string w.uvIdx, to_string w.normalIdx)) = v :: vs := by
        conv_rhs => rw [← List.map_id (v :: vs)]
        apply List.map_congr_left
        intro w _
        exact tokenVertex_to_string w
      rw [hid]
      rfl
    · intro t ht
      obtain ⟨w, hw, rfl⟩ := List.mem_map.1 ht
      have hwf := List.all_eq_true.1 hp w hw
      simp only [Vertex.fits, Bool.and_eq_true, decide_eq_true_eq] at hwf
      exact ⟨isNumber_to_string _ hwf.1.1, isNumber_to_string _ hwf.1.2,
        isNumber_to_string _ hwf.2⟩

theorem readLine_append (store : List Polygon) (line : List Char) :
    readLine store line = store ++ readLine [] line := by
  unfold readLine
  split
  · split <;> simp
  · simp

theorem foldl_readLine (lines : List (List Char)) (store : List Polygon) :
    lines.foldl readLine store = store ++ (lines.map (readLine [])).flatten := by
  induction lines generalizing store with
  | nil => simp
  | cons l ls ih =>
    rw [List.foldl_cons, ih, readLine_append store l]
    simp

theorem ReadPolygons_eq (lines : List (List Char)) :
    ReadPolygons lines = (lines.map (readLine [])).flatten := by
  rw [ReadPolygons, foldl_readLine, List.nil_append]

/-! ## The generated body read back -/

theorem getD_fits (polygons : List Polygon) (h : storeFits polygons = true) (i : Nat) :
    (polygons[i]?.getD []).all Vertex.fits = true := by
  by_cases hi : i < polygons.length
  · rw [List.getElem?_eq_getElem hi]
    exact List.all_eq_true.1 h _ (List.getElem_mem hi)
  · rw [List.getElem?_eq_none (Nat.le_of_not_lt hi)]
    rfl

theorem read_faces (polygons : List Polygon) (h : storeFits polygons = true)
    (idxs : List Nat) :
    ((idxs.map (fun p => faceLine (polygons[p]?.getD []))).map (readLine [])).flatten =
      (idxs.map (fun p => polygons[p]?.getD [])).filter (fun p => !p.isEmpty) := by
  induction idxs with
  | nil => rfl
  | cons i is ih =>
    simp only [List.map_cons, List.flatten_cons, ih, List.filter_cons]
    rw [readLine_faceLine [] _ (getD_fits polygons h i)]
    cases hq : (polygons[i]?.getD []).isEmpty <;> simp

theorem read_group_lines (polygons : List Polygon) (h : storeFits polygons = true)
    (g : Nat) (grp : Group) :
    ((["usemtl Material.".toList ++ to_string g, "s off".toList] ++
        grp.polygons.map (fun p => faceLine (polygons[p]?.getD []))).map
          (readLine [])).flatten =
      (grp.polygons.map (fun p => polygons[p]?.getD [])).filter (fun p => !p.isEmpty) := by
  rw [List.map_append, List.flatten_append, read_faces polygons h]
  have h1 : readLine [] ("usemtl Material.".toList ++ to_string g) = [] := rfl
  have h2 : readLine [] "s off".toList = [] := rfl
  simp only [List.map_cons, List.map_nil, h1, h2, List.flatten_cons, List.flatten_nil,
    List.append_nil, List.nil_append]

theorem map_range_getD {α β : Type} (l : List α) (d : α) (f : α → β) :
    (List.range l.length).map (fun i => f (l[i]?.getD d)) = l.map f := by
  apply List.ext_getElem
  · simp
  · intro n h1 h2
    have hn : n < l.length := by simpa using h2
    simp [List.getElem?_eq_getElem hn]

theorem flatten_map_flatten {α β : Type} (f : α → List β) (L : List (List α)) :
    (L.flatten.map f).flatten = (L.map (fun l => (l.map f).flatten)).flatten := by
  induction L with
  | nil => rfl
  | cons l L ih =>
    simp only [List.flatten_cons, List.map_append, List.flatten_append, List.map_cons, ih]

theorem read_objBody (polygons : List Polygon) (h : storeFits polygons = true)
    (groups : List Group) :
    ReadPolygons (objBody polygons groups) =
      ((allIndices groups).map (fun i => polygons[i]?.getD [])).filter
        (fun p => !p.isEmpty) := by
  rw [ReadPolygons_eq, objBody, objBodyFrom_eq, List.nil_append, flatten_map_flatten,
    List.map_map]
  have hfun : ((fun l => (List.map (readLine []) l).flatten) ∘ fun g =>
      ["usemtl Material.".toList ++ to_string g, "s off".toList] ++
        (groups[g]?.getD default).polygons.map (fun p => faceLine (polygons[p]?.getD []))) =
      fun g => (fun grp : Group => (grp.polygons.map (fun p => polygons[p]?.getD [])).filter
        (fun p => !p.isEmpty)) (groups[g]?.getD default) := by
    funext g
    exact read_group_lines polygons h g _
  rw [hfun]
  refine Eq.trans (congrArg List.flatten (map_range_getD groups default
    (fun grp : Group => (grp.polygons.map (fun p => polygons[p]?.getD [])).filter
      (fun p => !p.isEmpty)))) ?_
  clear hfun
  unfold allIndices
  induction groups with
  | nil => rfl
  | cons g gs ih =>
    simp only [List.map_cons, List.flatten_cons, List.map_append, List.filter_append, ih]

theorem count_allIndices (i : Nat) (groups : List Group) :
    (allIndices groups).count i = polyCount i groups := by
  rw [allIndices, List.count_flatten, List.map_map, polyCount]
  rfl

theorem allIndices_perm_range (polygons : List Polygon) :
    List.Perm (allIndices (DivideForEachUv polygons)) (List.range polygons.length) := by
  rw [List.perm_iff_count]
  intro i
  rw [count_allIndices, polyCount_DivideForEachUv]
  by_cases hi : i < polygons.length
  · rw [if_pos hi, List.count_eq_one_of_mem (List.nodup_range _) (List.mem_range.2 hi)]
  · rw [if_neg hi, List.count_eq_zero.2 (fun hm => hi (List.mem_range.1 hm))]

/-- C5 (counterexample): on `twoIslandsStore` reading the generated body back
does not give the store: the face lines come out in group order (polygon 1,
then 0, then 2). -/
theorem C5_round_trip_counterexample :
    ReadPolygons (objBody twoIslandsStore (DivideForEachUv twoIslandsStore)) =
      [triangle 4 5 6, triangle 1 2 3, triangle 1 4 7] ∧
    ReadPolygons (objBody twoIslandsStore (DivideForEachUv twoIslandsStore)) ≠
      twoIslandsStore := by
  decide

/-- C5 (amended): for a store whose vertex indices are `unsigned` values,
reading the generated OBJ body back yields the polygons of the store that have
at least one vertex, each with its triples unchanged and in order, arranged
group by group in the groups' stored index order; this is a permutation of the
store's polygons that have at least one vertex. -/
theorem C5_round_trip_in_group_order (polygons : List Polygon)
    (h : storeFits polygons = true) :
    ReadPolygons (objBody polygons (DivideForEachUv polygons)) =
      ((allIndices (DivideForEachUv polygons)).map (fun i => polygons[i]?.getD [])).filter
        (fun p => !p.isEmpty) ∧
    List.Perm (ReadPolygons (objBody polygons (DivideForEachUv polygons)))
      (polygons.filter (fun p => !p.isEmpty)) := by
  refine ⟨read_objBody polygons h _, ?_⟩
  rw [read_objBody polygons h]
  have hp := ((allIndices_perm_range polygons).map (fun i => polygons[i]?.getD [])).filter
    (fun p => !p.isEmpty)
  have hid := map_range_getD polygons [] (fun p => p)
  rw [hid, List.map_id'] at hp
  exact hp

/-- C5 (amended) at `twoIslandsStore`. -/
theorem C5_round_trip_in_group_order_witness :
    ReadPolygons (objBody twoIslandsStore (DivideForEachUv twoIslandsStore)) =
      ((allIndices (DivideForEachUv twoIslandsStore)).map
        (fun i => twoIslandsStore[i]?.getD [])).filter (fun p => !p.isEmpty) ∧
    List.Perm (ReadPolygons (objBody twoIslandsStore (DivideForEachUv twoIslandsStore)))
      (twoIslandsStore.filter (fun p => !p.isEmpty)) :=
  C5_round_trip_in_group_order twoIslandsStore (by decide)

/-! ## Re-partitioning in the interactive program -/

theorem runDivideForEachUv_groups (st : AppState) :
    (runDivideForEachUv st).g_vGroups = DivideForEachUv st.g_vPolygons := rfl

theorem runDivideForEachPoly_groups (st : AppState) :
    (runDivideForEachPoly st).g_vGroups = DivideForEachPoly st.g_vPolygons := rfl

theorem divide_groups (st : AppState) :
    (divide st).g_vGroups =
      if st.g_eDivisionMode = DivisionMode.ePerUvGroup then DivideForEachUv st.g_vPolygons
      else DivideForEachPoly st.g_vPolygons := by
  unfold divide
  split <;> rfl

theorem divide_rest (st : AppState) :
    (divide st).g_vPolygons = st.g_vPolygons ∧
    (divide st).g_eDivisionMode = st.g_eDivisionMode ∧
    (divide st).g_eGlobalState = st.g_eGlobalState := by
  unfold divide
  split <;> exact ⟨rfl, rfl, rfl⟩

theorem divide_idem (st : AppState) : divide (divide st) = divide st := by
  have h1 := divide_groups (divide st)
  have h2 := divide_groups st
  obtain ⟨hp, hm, hs⟩ := divide_rest st
  obtain ⟨hp', hm', hs'⟩ := divide_rest (divide st)
  rw [hp, hm, ← h2] at h1
  cases hd : divide (divide st) with
  | mk a b c d =>
    cases hd1 : divide st with
    | mk a1 b1 c1 d1 =>
      rw [hd, hd1] at h1 hp' hm' hs'
      simp only at h1 hp' hm' hs'
      rw [h1, hp', hm', hs']

/-- C11: the partition step of the interactive program gives a group list that
is a function of the polygon store and the division mode alone (whatever the
group list held before), leaves the store and the mode unchanged, and run twice
in a row gives the same state as run once; the same holds for the guarded step
of the main loop. -/
theorem C11_repartition_idempotent (st : AppState) :
    (divide st).g_vGroups =
      (if st.g_eDivisionMode = DivisionMode.ePerUvGroup then DivideForEachUv st.g_vPolygons
       else DivideForEachPoly st.g_vPolygons) ∧
    (∀ st' : AppState, st'.g_vPolygons = st.g_vPolygons →
      st'.g_eDivisionMode = st.g_eDivisionMode →
      (divide st').g_vGroups = (divide st).g_vGroups) ∧
    (divide st).g_vPolygons = st.g_vPolygons ∧
    divide (divide st) = divide st ∧
    partitionStep (partitionStep st) = partitionStep st := by
  refine ⟨divide_groups st, ?_, (divide_rest st).1, divide_idem st, ?_⟩
  · intro st' hp hm
    rw [divide_groups, divide_groups, hp, hm]
  · unfold partitionStep
    by_cases h : st.g_eGlobalState = GlobalAppState.eFileRead
    · rw [if_pos h]
      rw [if_neg (by simp)]
    · rw [if_neg h, if_neg h]

/-! ## The group invariant and the line-level round trip -/

theorem vertices_nil_of_keysExact {polygons : List Polygon} {g : Group}
    (h : KeysExact polygons g) (hp : g.polygons = []) : g.vertices = [] := by
  cases hv : g.vertices with
  | nil => rfl
  | cons v vs =>
    have hk : v.key ∈ keysOf g.vertices := by
      rw [hv]
      exact List.mem_map_of_mem _ (List.mem_cons_self _ _)
    obtain ⟨a, ha, _⟩ := (h v.key).1 hk
    rw [hp] at ha
    exact absurd ha (List.not_mem_nil a)

/-- C14: after the grouping pass has processed any prefix of the store, and
after the final prune, every group of the list has as keys of its vertex set
exactly the (positionIndex, uvIndex) pairs of the polygons whose indices it
holds, and a group with an empty polygon list has an empty vertex set. -/
theorem C14_group_key_invariant (polygons : List Polygon) (n : Nat)
    (hn : n ≤ polygons.length) :
    (∀ g ∈ groupsAfter polygons n,
      (∀ k, k ∈ keysOf g.vertices ↔
        ∃ a ∈ g.polygons, k ∈ keysOf (polygons[a]?.getD [])) ∧
      (g.polygons = [] → g.vertices = [])) ∧
    (∀ g ∈ DivideForEachUv polygons,
      (∀ k, k ∈ keysOf g.vertices ↔
        ∃ a ∈ g.polygons, k ∈ keysOf (polygons[a]?.getD [])) ∧
      (g.polygons = [] → g.vertices = [])) := by
  constructor
  · intro g hg
    have h := (groupsInv_groupsAfter polygons n hn g hg).2.2
    exact ⟨h, vertices_nil_of_keysExact h⟩
  · intro g hg
    have h := (groupsInv_DivideForEachUv polygons g hg).2.2
    exact ⟨h, vertices_nil_of_keysExact h⟩

/-- C14 at `bridgeStore` after all four polygons, where the group at position 0
has been emptied by a merge. -/
theorem C14_group_key_invariant_witness :
    (∀ g ∈ groupsAfter bridgeStore 4,
      (∀ k, k ∈ keysOf g.vertices ↔
        ∃ a ∈ g.polygons, k ∈ keysOf (bridgeStore[a]?.getD [])) ∧
      (g.polygons = [] → g.vertices = [])) ∧
    (∀ g ∈ DivideForEachUv bridgeStore,
      (∀ k, k ∈ keysOf g.vertices ↔
        ∃ a ∈ g.polygons, k ∈ keysOf (bridgeStore[a]?.getD [])) ∧
      (g.polygons = [] → g.vertices = [])) :=
  C14_group_key_invariant bridgeStore 4 (by decide)

theorem faceLine_starts (v : Vertex) (vs : List Vertex) :
    ∃ tail, faceLine (v :: vs) = 'f' :: ' ' :: tail := by
  rw [faceLine_eq]
  exact ⟨_, rfl⟩

/-- C17: for a polygon with at least one vertex and `unsigned` indices the face
line built by the formatter is `f` followed by the text ` <pos>/<uv>/<normal>`
of each vertex, starts with `f ` and is read back as exactly the same vertices;
for the polygon with no vertices the formatter builds the line `f`, which does
not start with `f ` and appends no polygon when read. -/
theorem C17_face_line_round_trip (p : Polygon) (hne : p ≠ [])
    (hfit : p.all Vertex.fits = true) :
    faceLine p = 'f' :: (p.map vertexText).flatten ∧
    compareIsZero (faceLine p) 2 "f ".toList = true ∧
    parseFaceLine (faceLine p) = some p ∧
    (∀ store, readLine store (faceLine p) = store ++ [p]) ∧
    faceLine [] = "f".toList ∧
    compareIsZero (faceLine []) 2 "f ".toList = false ∧
    parseFaceLine (faceLine []) = none ∧
    (∀ store, readLine store (faceLine []) = store) := by
  have hread : ∀ store, readLine store (faceLine p) = store ++ [p] := by
    intro store
    rw [readLine_faceLine store p hfit]
    cases p with
    | nil => exact absurd rfl hne
    | cons v vs => rfl
  refine ⟨faceLine_eq p, ?_, ?_, hread, rfl, rfl, rfl, fun _ => rfl⟩
  · cases p with
    | nil => exact absurd rfl hne
    | cons v vs =>
      obtain ⟨tail, ht⟩ := faceLine_starts v vs
      rw [ht]
      rfl
  · rw [parseFaceLine, hread]
    rfl

/-- C17 at the first triangle of the specification's concrete case. -/
theorem C17_face_line_round_trip_witness :
    faceLine (triangle 1 2 3) = 'f' :: ((triangle 1 2 3).map vertexText).flatten ∧
    compareIsZero (faceLine (triangle 1 2 3)) 2 "f ".toList = true ∧
    parseFaceLine (faceLine (triangle 1 2 3)) = some (triangle 1 2 3) ∧
    (∀ store, readLine store (faceLine (triangle 1 2 3)) = store ++ [triangle 1 2 3]) ∧
    faceLine [] = "f".toList ∧
    compareIsZero (faceLine []) 2 "f ".toList = false ∧
    parseFaceLine (faceLine []) = none ∧
    (∀ store, readLine store (faceLine []) = store) :=
  C17_face_line_round_trip (triangle 1 2 3) (by decide) (by decide)

/-! ## The direction of a merge and the third match -/

theorem matchesBelow_nodup (poly : Polygon) (groups : List Group) (n : Nat) :
    (matchesBelow poly groups n).Nodup :=
  (List.nodup_range n).filter _

theorem matchesBelow_pair_below {poly : Polygon} {groups : List Group} {i j n : Nat}
    (hij : i < j) (hjn : j < n)
    (hi : (groups[i]?.getD default).polygonBelongs poly = true)
    (hj : (groups[j]?.getD default).polygonBelongs poly = true)
    (hothers : ∀ k, k < n → k ≠ i → k ≠ j →
      (groups[k]?.getD default).polygonBelongs poly = false) :
    matchesBelow poly groups n = [i, j] := by
  have hs1 : List.Sorted (fun a b : Nat => a < b) (matchesBelow poly groups n) :=
    (List.sorted_lt_range _).filter _
  have hs2 : List.Sorted (fun a b : Nat => a < b) [i, j] := by simp [hij]
  refine List.eq_of_perm_of_sorted ?_ hs1 hs2
  refine (List.perm_ext_iff_of_nodup (matchesBelow_nodup poly groups n)
    (by simp [Nat.ne_of_lt hij])).2 ?_
  intro a
  simp only [matchesBelow, List.mem_filter, List.mem_range, List.mem_cons, List.mem_singleton,
    List.not_mem_nil, or_false]
  constructor
  · rintro ⟨ha, hb⟩
    by_contra hne
    push_neg at hne
    rw [hothers a ha hne.1 hne.2] at hb
    exact Bool.false_ne_true hb
  · rintro (h | h)
    · rw [h]; exact ⟨Nat.lt_trans hij hjn, hi⟩
    · rw [h]; exact ⟨hjn, hj⟩

theorem matchesBelow_extends (poly : Polygon) (groups : List Group) {n m : Nat} (h : n ≤ m) :
    ∃ rest, matchesBelow poly groups m = matchesBelow poly groups n ++ rest := by
  induction m with
  | zero =>
    have : n = 0 := Nat.le_zero.1 h
    exact ⟨[], by rw [this, List.append_nil]⟩
  | succ m ih =>
    by_cases hn : n = m + 1
    · exact ⟨[], by rw [hn, List.append_nil]⟩
    · obtain ⟨rest, hr⟩ := ih (by omega)
      exact ⟨rest ++ (if (groups[m]?.getD default).polygonBelongs poly then [m] else []),
        by rw [matchesBelow_succ, hr, List.append_assoc]⟩

theorem matchesBelow_first_two {poly : Polygon} {groups : List Group} {i j : Nat}
    (hij : i < j)
    (hi : (groups[i]?.getD default).polygonBelongs poly = true)
    (hj : (groups[j]?.getD default).polygonBelongs poly = true)
    (hfirst : ∀ k, k < j → k ≠ i → (groups[k]?.getD default).polygonBelongs poly = false) :
    ∃ rest, matchesBelow poly groups groups.length = i :: j :: rest := by
  have hpair : matchesBelow poly groups (j + 1) = [i, j] := by
    refine matchesBelow_pair_below hij (Nat.lt_succ_self j) hi hj ?_
    intro k hk hki hkj
    exact hfirst k (by omega) hki
  obtain ⟨rest, hr⟩ := matchesBelow_extends poly groups
    (Nat.succ_le_of_lt (belongs_lt_length hj))
  exact ⟨rest, by rw [hr, hpair]; rfl⟩

theorem processPolygon_of_two {poly : Polygon} {groups : List Group} {i j : Nat}
    {rest : List Nat} (p : Nat)
    (hm : matchesBelow poly groups groups.length = i :: j :: rest) :
    processPolygon groups p poly =
      (groups.set i Group.empty).set j
        { polygons := (groups[j]?.getD default).polygons ++
            ((groups[i]?.getD default).polygons ++ [p]),
          vertices := (usMerge (groups[j]?.getD default).vertices
            ((groups[i]?.getD default).addPolygon p poly).vertices).1 } ∧
    i < groups.length ∧ j < groups.length ∧ i ≠ j ∧
    ∀ m ∈ rest, m ≠ i ∧ m ≠ j := by
  have hi := (mem_matchesBelow (show i ∈ matchesBelow poly groups groups.length by
    rw [hm]; simp)).2.1
  have hj := (mem_matchesBelow (show j ∈ matchesBelow poly groups groups.length by
    rw [hm]; simp)).2.1
  have hnd := matchesBelow_nodup poly groups groups.length
  rw [hm] at hnd
  simp only [List.nodup_cons, List.mem_cons, not_or] at hnd
  refine ⟨?_, hi, hj, hnd.1.1, ?_⟩
  · rw [processPolygon_eq, hm]
    rfl
  · intro m hmem
    refine ⟨?_, ?_⟩
    · rintro rfl; exact hnd.1.2 hmem
    · rintro rfl; exact hnd.2.1 hmem

theorem keys_of_merged (gi gj : Group) (p : Nat) (poly : Polygon) (k : Nat × Nat) :
    k ∈ keysOf (usMerge gj.vertices (gi.addPolygon p poly).vertices).1 ↔
      k ∈ keysOf gj.vertices ∨ k ∈ keysOf gi.vertices ∨ k ∈ keysOf poly := by
  rw [mem_keysOf_usMerge]
  simp only [Group.addPolygon, mem_keysOf_foldl_usInsert]

/-- C12 (counterexample): in `twoIslandsStore` the third triangle belongs to
the groups at positions 0 (the landing group) and 1; after it is processed the
landing group at position 0 is empty and does not hold the polygon, while the
group at position 1 holds the polygons `[1, 0, 2]`. -/
theorem C12_merge_direction_counterexample :
    ((groupsAfter twoIslandsStore 2)[0]?.getD default).polygonBelongs (triangle 1 4 7) = true ∧
    ((groupsAfter twoIslandsStore 2)[1]?.getD default).polygonBelongs (triangle 1 4 7) = true ∧
    ¬ (2 ∈ ((processPolygon (groupsAfter twoIslandsStore 2) 2
      (triangle 1 4 7))[0]?.getD default).polygons) ∧
    (processPolygon (groupsAfter twoIslandsStore 2) 2 (triangle 1 4 7))[0]?.getD default =
      Group.empty ∧
    ((processPolygon (groupsAfter twoIslandsStore 2) 2
      (triangle 1 4 7))[1]?.getD default).polygons = [1, 0, 2] := by
  decide

/-- C12 (amended): when the polygon belongs to the group at position `i`, the
first match of the scan, and to the group at position `j > i`, the next match,
then after the polygon is processed the group at position `j` holds the polygon
indices it had, then those the group at `i` had, then `p`, and its keys are the
keys of both groups and of the polygon; the landing group at position `i` is
empty; the group list keeps its length, so the merged group keeps position `j`. -/
theorem C12_merge_into_later_group (groups : List Group) (p : Nat) (poly : Polygon)
    (i j : Nat) (hij : i < j)
    (hi : (groups[i]?.getD default).polygonBelongs poly = true)
    (hj : (groups[j]?.getD default).polygonBelongs poly = true)
    (hfirst : ∀ k, k < j → k ≠ i → (groups[k]?.getD default).polygonBelongs poly = false) :
    (processPolygon groups p poly).length = groups.length ∧
    ((processPolygon groups p poly)[j]?.getD default).polygons =
      (groups[j]?.getD default).polygons ++ ((groups[i]?.getD default).polygons ++ [p]) ∧
    (∀ k, k ∈ keysOf ((processPolygon groups p poly)[j]?.getD default).vertices ↔
      k ∈ keysOf (groups[j]?.getD default).vertices ∨
      k ∈ keysOf (groups[i]?.getD default).vertices ∨ k ∈ keysOf poly) ∧
    (processPolygon groups p poly)[i]?.getD default = Group.empty := by
  obtain ⟨rest, hm⟩ := matchesBelow_first_two hij hi hj hfirst
  obtain ⟨heq, hil, hjl, hne, _⟩ := processPolygon_of_two p hm
  rw [heq]
  refine ⟨by simp, ?_, ?_, ?_⟩
  · rw [getD_set_self _ (by simpa using hjl)]
  · intro k
    rw [getD_set_self _ (by simpa using hjl)]
    exact keys_of_merged _ _ p poly k
  · rw [getD_set_ne _ hne.symm, getD_set_self _ hil]

/-- C12 (amended) at the third triangle of `twoIslandsStore`. -/
theorem C12_merge_into_later_group_witness :
    (processPolygon (groupsAfter twoIslandsStore 2) 2 (triangle 1 4 7)).length =
      (groupsAfter twoIslandsStore 2).length ∧
    ((processPolygon (groupsAfter twoIslandsStore 2) 2
      (triangle 1 4 7))[1]?.getD default).polygons =
      ((groupsAfter twoIslandsStore 2)[1]?.getD default).polygons ++
        (((groupsAfter twoIslandsStore 2)[0]?.getD default).polygons ++ [2]) ∧
    (∀ k, k ∈ keysOf ((processPolygon (groupsAfter twoIslandsStore 2) 2
        (triangle 1 4 7))[1]?.getD default).vertices ↔
      k ∈ keysOf ((groupsAfter twoIslandsStore 2)[1]?.getD default).vertices ∨
      k ∈ keysOf ((groupsAfter twoIslandsStore 2)[0]?.getD default).vertices ∨
      k ∈ keysOf (triangle 1 4 7)) ∧
    (processPolygon (groupsAfter twoIslandsStore 2) 2 (triangle 1 4 7))[0]?.getD default =
      Group.empty :=
  C12_merge_into_later_group (groupsAfter twoIslandsStore 2) 2 (triangle 1 4 7) 0 1
    (by decide) (by decide) (by decide) (by decide)

/-- C13: when the polygon matches three or more groups, at positions
`i, j, k, ...` in scan order, the scan ends with the landing index still `i`
and no new group is made; the first group is emptied, the second holds its own
polygons, then those of the first, then `p`, with the keys of both and of the
polygon; joining the emptied group into a group changes nothing, and the third
and every later matching group (like every group other than the first two) is
exactly what it was before. -/
theorem C13_third_match_unchanged (groups : List Group) (p : Nat) (poly : Polygon)
    (i j k : Nat) (rest : List Nat)
    (hm : matchesBelow poly groups groups.length = i :: j :: k :: rest) :
    (scanGroups poly p groups).2 = some i ∧
    processPolygon groups p poly = (scanGroups poly p groups).1 ∧
    (processPolygon groups p poly).length = groups.length ∧
    (processPolygon groups p poly)[i]?.getD default = Group.empty ∧
    ((processPolygon groups p poly)[j]?.getD default).polygons =
      (groups[j]?.getD default).polygons ++ ((groups[i]?.getD default).polygons ++ [p]) ∧
    (∀ key, key ∈ keysOf ((processPolygon groups p poly)[j]?.getD default).vertices ↔
      key ∈ keysOf (groups[j]?.getD default).vertices ∨
      key ∈ keysOf (groups[i]?.getD default).vertices ∨ key ∈ keysOf poly) ∧
    (∀ g : Group, (g.joinGroup Group.empty).1 = g) ∧
    (∀ m ∈ k :: rest, (processPolygon groups p poly)[m]? = groups[m]?) ∧
    (∀ m, m ≠ i → m ≠ j → (processPolygon groups p poly)[m]? = groups[m]?) := by
  obtain ⟨heq, hil, hjl, hne, hrest⟩ := processPolygon_of_two p hm
  have hscan : scanGroups poly p groups = (processPolygon groups p poly, some i) := by
    rw [heq, scanGroups_eq, hm]
    rfl
  have hother : ∀ m, m ≠ i → m ≠ j → (processPolygon groups p poly)[m]? = groups[m]? := by
    intro m hmi hmj
    rw [heq, List.getElem?_set_ne (Ne.symm hmj), List.getElem?_set_ne (Ne.symm hmi)]
  refine ⟨by rw [hscan], by rw [hscan], ?_, ?_, ?_, ?_, ?_, ?_, hother⟩
  · rw [heq]; simp
  · rw [heq, getD_set_ne _ hne.symm, getD_set_self _ hil]
  · rw [heq, getD_set_self _ (by simpa using hjl)]
  · intro key
    rw [heq, getD_set_self _ (by simpa using hjl)]
    exact keys_of_merged _ _ p poly key
  · intro g
    simp [Group.joinGroup, Group.empty, usMerge_nil]
  · intro m hmem
    exact hother m (hrest m hmem).1 (hrest m hmem).2

/-- C13 at the fourth triangle of `bridgeStore`, which matches the groups at
positions 0, 1 and 2. -/
theorem C13_third_match_unchanged_witness :
    (scanGroups (triangle 1 4 7) 3 (groupsAfter bridgeStore 3)).2 = some 0 ∧
    processPolygon (groupsAfter bridgeStore 3) 3 (triangle 1 4 7) =
      (scanGroups (triangle 1 4 7) 3 (groupsAfter bridgeStore 3)).1 ∧
    (processPolygon (groupsAfter bridgeStore 3) 3 (triangle 1 4 7)).length =
      (groupsAfter bridgeStore 3).length ∧
    (processPolygon (groupsAfter bridgeStore 3) 3 (triangle 1 4 7))[0]?.getD default =
      Group.empty ∧
    ((processPolygon (groupsAfter bridgeStore 3) 3 (triangle 1 4 7))[1]?.getD default).polygons =
      ((groupsAfter bridgeStore 3)[1]?.getD default).polygons ++
        (((groupsAfter bridgeStore 3)[0]?.getD default).polygons ++ [3]) ∧
    (∀ key, key ∈ keysOf ((processPolygon (groupsAfter bridgeStore 3) 3
        (triangle 1 4 7))[1]?.getD default).vertices ↔
      key ∈ keysOf ((groupsAfter bridgeStore 3)[1]?.getD default).vertices ∨
      key ∈ keysOf ((groupsAfter bridgeStore 3)[0]?.getD default).vertices ∨
      key ∈ keysOf (triangle 1 4 7)) ∧
    (∀ g : Group, (g.joinGroup Group.empty).1 = g) ∧
    (∀ m ∈ 2 :: ([] : List Nat), (processPolygon (groupsAfter bridgeStore 3) 3
      (triangle 1 4 7))[m]? = (groupsAfter bridgeStore 3)[m]?) ∧
    (∀ m, m ≠ 0 → m ≠ 1 → (processPolygon (groupsAfter bridgeStore 3) 3
      (triangle 1 4 7))[m]? = (groupsAfter bridgeStore 3)[m]?) :=
  C13_third_match_unchanged (groupsAfter bridgeStore 3) 3 (triangle 1 4 7) 0 1 2 []
    (by decide)

/-! ## Face lines without normals -/

theorem readUnsigned_digits (ds rest : List Char) (hds : isDigits ds = true)
    (hrest : rest.takeWhile isDigit = []) :
    readUnsigned (ds ++ rest) =
      if decimalValue ds > UINT_MAX_VAL then none else some (decimalValue ds, rest) := by
  by_cases hov : decimalValue ds > UINT_MAX_VAL
  · rw [if_pos hov]
    simp only [isDigits, Bool.and_eq_true, Bool.not_eq_true', List.isEmpty_eq_false] at hds
    obtain ⟨hne, hall⟩ := hds
    obtain ⟨htw, hdw⟩ := takeWhile_digits_append ds rest hall hrest
    cases ds with
    | nil => exact absurd rfl hne
    | cons d ds =>
      have hd : isDigit d = true := by
        simp only [List.all_cons, Bool.and_eq_true] at hall
        exact hall.1
      obtain ⟨hsp, hminus, hplus⟩ := isDigit_not_space hd
      have hskip : skipWs (d :: ds ++ rest) = d :: ds ++ rest := by
        simp only [skipWs, List.cons_append, List.dropWhile_cons, hsp, Bool.false_eq_true,
          if_false]
      have hm : ((d :: ds ++ rest).head? == some '-') = false := by
        simp only [List.cons_append, List.head?_cons, beq_eq_false_iff_ne, ne_eq,
          Option.some.injEq]
        exact hminus
      have hp : ((d :: ds ++ rest).head? == some '+') = false := by
        simp only [List.cons_append, List.head?_cons, beq_eq_false_iff_ne, ne_eq,
          Option.some.injEq]
        exact hplus
      have hstrip : stripSign (d :: ds ++ rest) = d :: ds ++ rest := by
        simp only [stripSign, hm, hp, Bool.or_self, Bool.false_eq_true, if_false]
      simp only [readUnsigned, hskip, hstrip, htw, List.isEmpty_cons, Bool.false_eq_true,
        if_false, hov, if_true]
  · rw [if_neg hov]
    refine readUnsigned_number ds rest ?_ hrest
    simp only [isDigits, Bool.and_eq_true] at hds
    simp only [isNumber, Bool.and_eq_true, decide_eq_true_eq]
    exact ⟨hds, Nat.le_of_not_lt hov⟩

theorem readUnsigned_slash (s : List Char) : readUnsigned ('/' :: s) = none := rfl

theorem readUnsigned_nil : readUnsigned [] = none := rfl

theorem readChar_nil : readChar [] = none := rfl

theorem readChar_space_digit (d : Char) (rest : List Char) (hd : isDigit d = true) :
    readChar (' ' :: d :: rest) = some (d, rest) := by
  have h : skipWs (' ' :: d :: rest) = d :: rest := by
    have h1 : skipWs (' ' :: d :: rest) = skipWs (d :: rest) := rfl
    rw [h1]
    simp only [skipWs, List.dropWhile_cons, (isDigit_not_space hd).1, Bool.false_eq_true,
      if_false]
  simp only [readChar, h]

theorem readVertices_of_none {s : List Char} (h : readVertex s = none) :
    readVertices s = [] := by
  rw [readVertices_unfold, h]

/-- One token ` <pos>/<uv>` followed by nothing, or by a token whose position
is a single digit, makes the first run of the loop condition fail. -/
theorem readVertex_pair_none (p1 u1 rest : List Char) (hp : isDigits p1 = true)
    (hu : isDigits u1 = true)
    (hrest : rest = [] ∨ ∃ d tail, isDigit d = true ∧ rest = ' ' :: d :: '/' :: tail) :
    readVertex (' ' :: (p1 ++ '/' :: (u1 ++ rest))) = none := by
  have hrd : rest.takeWhile isDigit = [] := by
    rcases hrest with h | ⟨d, tail, _, h⟩ <;> (rw [h]; rfl)
  rw [readVertex, readUnsigned_space,
    readUnsigned_digits p1 _ hp (takeWhile_isDigit_slash _)]
  by_cases h1 : decimalValue p1 > UINT_MAX_VAL
  · rw [if_pos h1]
  · rw [if_neg h1]
    simp only [readChar_slash, readUnsigned_digits u1 rest hu hrd]
    by_cases h2 : decimalValue u1 > UINT_MAX_VAL
    · rw [if_pos h2]
    · rw [if_neg h2]
      rcases hrest with h | ⟨d, tail, hd, h⟩
      · rw [h]
        rfl
      · rw [h]
        simp only [readChar_space_digit d _ hd, readUnsigned_slash]

theorem digitValue_le_nine {d : Char} (hd : isDigit d = true) : digitValue d ≤ 9 := by
  simp only [isDigit, Bool.and_eq_true, decide_eq_true_eq] at hd
  unfold digitValue
  omega

theorem readUnsigned_space_digit (d : Char) (rest : List Char) (hd : isDigit d = true)
    (hrest : rest.takeWhile isDigit = []) :
    readUnsigned (' ' :: d :: rest) = some (digitValue d, rest) := by
  have hv : decimalValue [d] = digitValue d := by simp [decimalValue]
  have hds : isDigits [d] = true := by simp [isDigits, hd]
  have h := readUnsigned_digits [d] rest hds hrest
  have hle := digitValue_le_nine hd
  have hno : ¬ decimalValue [d] > UINT_MAX_VAL := by
    rw [hv]
    unfold UINT_MAX_VAL
    omega
  rw [if_neg hno, hv] at h
  rw [readUnsigned_space]
  exact h

theorem single_digit_tokens (toks : List (List Char))
    (h : ∀ t ∈ toks, t.length = 1 ∧ t.all isDigit = true) :
    ∃ ds : List Char, ds.all isDigit = true ∧ toks = ds.map (fun d => [d]) := by
  induction toks with
  | nil => exact ⟨[], rfl, rfl⟩
  | cons t ts ih =>
    obtain ⟨ds, hds, hts⟩ := ih (fun t' h' => h t' (List.mem_cons_of_mem _ h'))
    obtain ⟨hlen, hall⟩ := h t (List.mem_cons_self _ _)
    match t, hlen, hall with
    | [d], _, hall =>
      refine ⟨d :: ds, ?_, by rw [hts]; rfl⟩
      simp only [List.all_cons, List.all_nil, Bool.and_true] at hall
      simp only [List.all_cons, hall, hds, Bool.and_self]

/-- C16 (counterexample): a `<pos>` line with two-digit indices, a `<pos>` line
with five single-digit indices and a `<pos>/<uv>` line with two-digit indices
each yield a polygon with one vertex, put together from digits of different
tokens. -/
theorem C16_no_normal_counterexample :
    "f 10 20 30".toList =
      'f' :: (["10".toList, "20".toList, "30".toList].map posTokenText).flatten ∧
    parseFaceLine "f 10 20 30".toList =
      some [{ posIdx := 10, uvIdx := 0, normalIdx := 0 }] ∧
    "f 1 2 3 4 5".toList =
      'f' :: (["1".toList, "2".toList, "3".toList, "4".toList,
        "5".toList].map posTokenText).flatten ∧
    parseFaceLine "f 1 2 3 4 5".toList =
      some [{ posIdx := 1, uvIdx := 3, normalIdx := 5 }] ∧
    "f 11/22 33/44".toList =
      'f' :: ([("11".toList, "22".toList), ("33".toList, "44".toList)].map
        pairTokenText).flatten ∧
    parseFaceLine "f 11/22 33/44".toList =
      some [{ posIdx := 11, uvIdx := 22, normalIdx := 3 }] := by
  decide

/-- C16 (amended): a face line of one or more tokens ` <pos>/<uv>` (digit
sequences of any length) in which the second token, when there is one, has a
single-digit position, and a face line of one to four tokens ` <pos>` that are
single digits, each append an empty polygon to the store. -/
theorem C16_no_normal_empty_polygon (store : List Polygon)
    (pairs : List (List Char × List Char)) (singles : List (List Char))
    (hpairs : ∀ t ∈ pairs, isDigits t.1 = true ∧ isDigits t.2 = true)
    (hne : pairs ≠ [])
    (hsecond : ∀ t, pairs[1]? = some t → t.1.length = 1)
    (hsingles : ∀ t ∈ singles, t.length = 1 ∧ t.all isDigit = true)
    (hne' : singles ≠ []) (hfour : singles.length ≤ 4) :
    readLine store ('f' :: (pairs.map pairTokenText).flatten) = store ++ [[]] ∧
    readLine store ('f' :: (singles.map posTokenText).flatten) = store ++ [[]] := by
  constructor
  · cases pairs with
    | nil => exact absurd rfl hne
    | cons t1 ts =>
      obtain ⟨hp1, hu1⟩ := hpairs t1 (List.mem_cons_self _ _)
      have hshape : ((t1 :: ts).map pairTokenText).flatten =
          ' ' :: (t1.1 ++ '/' :: (t1.2 ++ (ts.map pairTokenText).flatten)) := by
        simp [pairTokenText]
      have hrest : (ts.map pairTokenText).flatten = [] ∨ ∃ d tail, isDigit d = true ∧
          (ts.map pairTokenText).flatten = ' ' :: d :: '/' :: tail := by
        cases ts with
        | nil => exact Or.inl rfl
        | cons t2 ts' =>
          right
          have hlen := hsecond t2 (by simp)
          obtain ⟨hp2, _⟩ := hpairs t2 (List.mem_cons_of_mem _ (List.mem_cons_self _ _))
          obtain ⟨p2, u2⟩ := t2
          match p2, hlen, hp2 with
          | [d], _, hp2 =>
            refine ⟨d, u2 ++ (ts'.map pairTokenText).flatten, ?_, ?_⟩
            · simpa [isDigits] using hp2
            · simp [pairTokenText]
      rw [hshape, readLine_face,
        readVertices_of_none (readVertex_pair_none t1.1 t1.2 _ hp1 hu1 hrest)]
  · obtain ⟨ds, hds, hts⟩ := single_digit_tokens singles hsingles
    subst hts
    match ds, hds, hne', hfour with
    | [], _, hne', _ => exact absurd rfl hne'
    | [d1], hds, _, _ =>
      simp only [List.all_cons, List.all_nil, Bool.and_true] at hds
      have hv : readVertex [' ', d1] = none := by
        simp only [readVertex, readUnsigned_space_digit d1 [] hds rfl, readChar_nil]
      exact (readLine_face store [d1]).trans (by rw [readVertices_of_none hv])
    | [d1, d2], hds, _, _ =>
      simp only [List.all_cons, List.all_nil, Bool.and_true, Bool.and_eq_true] at hds
      have hv : readVertex [' ', d1, ' ', d2] = none := by
        simp only [readVertex, readUnsigned_space_digit d1 [' ', d2] hds.1 rfl,
          readChar_space_digit d2 [] hds.2, readUnsigned_nil]
      exact (readLine_face store [d1, ' ', d2]).trans (by rw [readVertices_of_none hv])
    | [d1, d2, d3], hds, _, _ =>
      simp only [List.all_cons, List.all_nil, Bool.and_true, Bool.and_eq_true] at hds
      have hv : readVertex [' ', d1, ' ', d2, ' ', d3] = none := by
        simp only [readVertex, readUnsigned_space_digit d1 [' ', d2, ' ', d3] hds.1 rfl,
          readChar_space_digit d2 [' ', d3] hds.2.1,
          readUnsigned_space_digit d3 [] hds.2.2 rfl, readChar_nil]
      exact (readLine_face store [d1, ' ', d2, ' ', d3]).trans
        (by rw [readVertices_of_none hv])
    | [d1, d2, d3, d4], hds, _, _ =>
      simp only [List.all_cons, List.all_nil, Bool.and_true, Bool.and_eq_true] at hds
      have hv : readVertex [' ', d1, ' ', d2, ' ', d3, ' ', d4] = none := by
        simp only [readVertex,
          readUnsigned_space_digit d1 [' ', d2, ' ', d3, ' ', d4] hds.1 rfl,
          readChar_space_digit d2 [' ', d3, ' ', d4] hds.2.1,
          readUnsigned_space_digit d3 [' ', d4] hds.2.2.1 rfl,
          readChar_space_digit d4 [] hds.2.2.2, readUnsigned_nil]
      exact (readLine_face store [d1, ' ', d2, ' ', d3, ' ', d4]).trans
        (by rw [readVertices_of_none hv])
    | _ :: _ :: _ :: _ :: _ :: _, _, _, hfour =>
      simp at hfour

/-- C16 (amended) on the lines `f 1/2 3/4 5/6` and `f 1 2 3`. -/
theorem C16_no_normal_empty_polygon_witness :
    readLine [] ('f' :: ([("1".toList, "2".toList), ("3".toList, "4".toList),
      ("5".toList, "6".toList)].map pairTokenText).flatten) = [] ++ [[]] ∧
    readLine [] ('f' :: (["1".toList, "2".toList, "3".toList].map posTokenText).flatten) =
      [] ++ [[]] :=
  C16_no_normal_empty_polygon [] [("1".toList, "2".toList), ("3".toList, "4".toList),
    ("5".toList, "6".toList)] ["1".toList, "2".toList, "3".toList]
    (by decide) (by decide) (by decide) (by decide) (by decide) (by decide)

/-! ## Grouping does not look at normals -/

theorem usCount_congr {s s' : List Vertex} {v v' : Vertex} (hs : keysOf s = keysOf s')
    (hv : v.key = v'.key) : usCount s v = usCount s' v' := by
  rw [Bool.eq_iff_iff, usCount_iff, usCount_iff, hs, hv]

theorem usInsert_congr {s s' : List Vertex} {v v' : Vertex} (hs : keysOf s = keysOf s')
    (hv : v.key = v'.key) : keysOf (usInsert s v) = keysOf (usInsert s' v') := by
  unfold usInsert
  rw [usCount_congr hs hv]
  split
  · exact hs
  · simp only [keysOf, List.map_append, List.map_cons, List.map_nil] at hs ⊢
    rw [hs, hv]

theorem foldl_usInsert_congr (pv pv' : List Vertex) (s s' : List Vertex)
    (hs : keysOf s = keysOf s') (hp : keysOf pv = keysOf pv') :
    keysOf (pv.foldl usInsert s) = keysOf (pv'.foldl usInsert s') := by
  induction pv generalizing pv' s s' with
  | nil =>
    have : pv' = [] := List.map_eq_nil_iff.1 hp.symm
    rw [this]
    exact hs
  | cons v pv ih =>
    obtain ⟨v', pv'', h1, h2, h3⟩ := List.map_eq_cons_iff.1 hp.symm
    rw [h1]
    exact ih pv'' _ _ (usInsert_congr hs h2.symm) h3.symm

theorem foldl_usMergeStep_congr (src src' : List Vertex)
    (st st' : List Vertex × List Vertex) (hs : keysOf st.1 = keysOf st'.1)
    (hp : keysOf src = keysOf src') :
    keysOf (src.foldl usMergeStep st).1 = keysOf (src'.foldl usMergeStep st').1 := by
  induction src generalizing src' st st' with
  | nil =>
    have : src' = [] := List.map_eq_nil_iff.1 hp.symm
    rw [this]
    exact hs
  | cons v src ih =>
    obtain ⟨v', src'', h1, h2, h3⟩ := List.map_eq_cons_iff.1 hp.symm
    rw [h1]
    refine ih src'' _ _ ?_ h3.symm
    unfold usMergeStep
    rw [usCount_congr hs h2.symm]
    split
    · exact hs
    · simp only [keysOf, List.map_append, List.map_cons, List.map_nil] at hs ⊢
      rw [hs, h2]

theorem usMerge_congr {dst dst' src src' : List Vertex} (hd : keysOf dst = keysOf dst')
    (hs : keysOf src = keysOf src') :
    keysOf (usMerge dst src).1 = keysOf (usMerge dst' src').1 :=
  foldl_usMergeStep_congr src src' (dst, []) (dst', []) hd hs

theorem polygonBelongs_congr {g g' : Group} {poly poly' : Polygon}
    (hg : keysOf g.vertices = keysOf g'.vertices) (hp : keysOf poly = keysOf poly') :
    g.polygonBelongs poly = g'.polygonBelongs poly' := by
  rw [Bool.eq_iff_iff, polygonBelongs_iff, polygonBelongs_iff, hg, hp]

theorem getD_map_congr {α β : Type} (f : α → β) {l l' : List α} (d d' : α)
    (h : l.map f = l'.map f) (hd : f d = f d') (i : Nat) :
    f (l[i]?.getD d) = f (l'[i]?.getD d') := by
  have h1 := congrArg (fun x => x[i]?) h
  simp only [List.getElem?_map] at h1
  cases h2 : l[i]? with
  | none =>
    cases h3 : l'[i]? with
    | none => simpa using hd
    | some b => rw [h2, h3] at h1; simp at h1
  | some a =>
    cases h3 : l'[i]? with
    | none => rw [h2, h3] at h1; simp at h1
    | some b =>
      rw [h2, h3] at h1
      simpa using h1

theorem shape_getD {gs gs' : List Group} (h : gs.map Group.shape = gs'.map Group.shape)
    (i : Nat) : (gs[i]?.getD default).shape = (gs'[i]?.getD default).shape :=
  getD_map_congr Group.shape default default h rfl i

theorem matchesBelow_congr {gs gs' : List Group} {poly poly' : Polygon}
    (h : gs.map Group.shape = gs'.map Group.shape) (hp : keysOf poly = keysOf poly')
    (n : Nat) : matchesBelow poly gs n = matchesBelow poly' gs' n := by
  unfold matchesBelow
  apply List.filter_congr
  intro g _
  exact polygonBelongs_congr (congrArg Prod.snd (shape_getD h g)) hp

theorem shape_addPolygon {g g' : Group} {poly poly' : Polygon} (p : Nat)
    (hg : g.shape = g'.shape) (hp : keysOf poly = keysOf poly') :
    (g.addPolygon p poly).shape = (g'.addPolygon p poly').shape := by
  have h1 : g.polygons = g'.polygons := congrArg Prod.fst hg
  have h2 : keysOf g.vertices = keysOf g'.vertices := congrArg Prod.snd hg
  simp only [Group.shape, Group.addPolygon, h1, foldl_usInsert_congr poly poly' _ _ h2 hp]

theorem processPolygon_congr {gs gs' : List Group} {poly poly' : Polygon} (p : Nat)
    (h : gs.map Group.shape = gs'.map Group.shape) (hp : keysOf poly = keysOf poly') :
    (processPolygon gs p poly).map Group.shape =
      (processPolygon gs' p poly').map Group.shape := by
  have hlen : gs.length = gs'.length := by
    have := congrArg List.length h
    simpa using this
  rw [processPolygon_eq, processPolygon_eq, ← hlen, ← matchesBelow_congr h hp]
  generalize matchesBelow poly gs gs.length = m
  match m with
  | [] =>
    simp only [List.map_append, List.map_cons, List.map_nil, h,
      shape_addPolygon p (rfl : Group.empty.shape = Group.empty.shape) hp]
  | [i] =>
    simp only [scanResult, List.map_set, h, shape_addPolygon p (shape_getD h i) hp]
  | i :: j :: _ =>
    have hi := shape_getD h i
    have hj := shape_getD h j
    have hX : Group.shape (Group.mk ((gs[j]?.getD default).polygons ++
          ((gs[i]?.getD default).polygons ++ [p]))
        (usMerge (gs[j]?.getD default).vertices
          ((gs[i]?.getD default).addPolygon p poly).vertices).1) =
        Group.shape (Group.mk ((gs'[j]?.getD default).polygons ++
          ((gs'[i]?.getD default).polygons ++ [p]))
        (usMerge (gs'[j]?.getD default).vertices
          ((gs'[i]?.getD default).addPolygon p poly').vertices).1) := by
      have h1 : (gs[i]?.getD default).polygons = (gs'[i]?.getD default).polygons :=
        congrArg Prod.fst hi
      have h2 : (gs[j]?.getD default).polygons = (gs'[j]?.getD default).polygons :=
        congrArg Prod.fst hj
      have h3 := usMerge_congr (congrArg Prod.snd hj)
        (congrArg Prod.snd (shape_addPolygon p hi hp))
      simp only [Group.shape, h1, h2]
      rw [h3]
    simp only [scanResult, List.map_set, h, hX]

theorem groupsAfter_congr {s1 s2 : List Polygon} (h : s1.map keysOf = s2.map keysOf)
    (n : Nat) :
    (groupsAfter s1 n).map Group.shape = (groupsAfter s2 n).map Group.shape := by
  induction n with
  | zero => rfl
  | succ n ih =>
    rw [groupsAfter_succ, groupsAfter_succ]
    exact processPolygon_congr n ih (getD_map_congr keysOf [] [] h rfl n)

theorem pruneGroups_shape (gs : List Group) :
    (pruneGroups gs).map Group.shape =
      (gs.map Group.shape).filter (fun sh => !sh.1.isEmpty) := by
  rw [List.filter_map]
  rfl

/-- C15: two stores with the same number of polygons, the same polygon lengths
and the same (positionIndex, uvIndex) at every vertex, whatever their normal
indices, get the same list of groups from the UV-group partitioner: the same
polygon index lists in the same order (and the same keys in every vertex set). -/
theorem C15_grouping_ignores_normals (s1 s2 : List Polygon)
    (h : s1.map (fun p => p.map Vertex.key) = s2.map (fun p => p.map Vertex.key)) :
    (DivideForEachUv s1).map (fun g => g.polygons) =
      (DivideForEachUv s2).map (fun g => g.polygons) ∧
    (DivideForEachUv s1).map (fun g => keysOf g.vertices) =
      (DivideForEachUv s2).map (fun g => keysOf g.vertices) := by
  have hlen : s1.length = s2.length := by
    have := congrArg List.length h
    simpa using this
  have hs : (DivideForEachUv s1).map Group.shape = (DivideForEachUv s2).map Group.shape := by
    rw [DivideForEachUv, DivideForEachUv, pruneGroups_shape, pruneGroups_shape, hlen,
      groupsAfter_congr h s2.length]
  constructor
  · have := congrArg (List.map Prod.fst) hs
    simpa [List.map_map, Function.comp_def, Group.shape] using this
  · have := congrArg (List.map Prod.snd) hs
    simpa [List.map_map, Function.comp_def, Group.shape] using this

/-- C15 at the specification's store and a copy of it with other normals. -/
theorem C15_grouping_ignores_normals_witness :
    (DivideForEachUv abcStore).map (fun g => g.polygons) =
      (DivideForEachUv abcStoreOtherNormals).map (fun g => g.polygons) ∧
    (DivideForEachUv abcStore).map (fun g => keysOf g.vertices) =
      (DivideForEachUv abcStoreOtherNormals).map (fun g => keysOf g.vertices) :=
  C15_grouping_ignores_normals abcStore abcStoreOtherNormals (by decide)

end AutoMaterials
